import Mathlib

/-!
Verification of the TilEm SDL debugger's breakpoint and stepping core
(`src/gui/sdldebugger.c`) against its natural-language specification.

The C code is shallowly embedded: C `dword` values become `Nat` (with
explicit masking where the C code masks), enums become inductive types,
the `GArray` of breakpoints becomes a `List`, and the emulator core's
breakpoint registry (an external collaborator, `tilem_z80_add_breakpoint`
and `tilem_z80_remove_breakpoint`, whose source is not part of the
debugger) is modelled from the specification as a fresh-handle registry.
-/

/-- Breakpoint address-space enum (`SDL_DBG_BP_LOGICAL`, `_PHYSICAL`,
`_PORT`, `_OPCODE` in `sdldebugger.c`). -/
inductive SdlDbgBpType where
  | logical
  | physical
  | port
  | opcode
deriving DecidableEq

/-- The debugger's breakpoint record, `TilemSdlDebugBreakpoint`:
`type`, `mode` (bitset: READ=4, WRITE=2, EXEC=1), `start`, `end`,
`mask`, `disabled`, and the three core registration handles `id[3]`
(slot 0 for the EXEC bit, slot 1 for WRITE, slot 2 for READ, following
the loop `for i: if (bp->mode & (1 << i))`). -/
structure TilemSdlDebugBreakpoint where
  type : SdlDbgBpType
  mode : Nat
  start : Nat
  end_ : Nat
  mask : Nat
  disabled : Nat
  id0 : Nat
  id1 : Nat
  id2 : Nat
deriving DecidableEq

instance : Inhabited TilemSdlDebugBreakpoint :=
  ⟨⟨SdlDbgBpType.logical, 0, 0, 0, 0, 0, 0, 0, 0⟩⟩

deriving instance DecidableEq for Except

/-- Core-level breakpoint kinds (the `TILEM_BREAK_*` constants of
`tilem.h`, which is outside the debugger source): memory read/write/exec,
port read/write, and the every-instruction `TILEM_BREAK_EXECUTE`. -/
inductive TilemBreakKind where
  | memRead
  | memWrite
  | memExec
  | portRead
  | portWrite
  | execute
deriving DecidableEq

/-- Tag naming which trigger-test callback a core breakpoint carries
(the C code passes a function pointer; `none` models a NULL callback). -/
inductive StepTestTag where
  | step
  | stepOver
  | finish
deriving DecidableEq

/-- One registered core breakpoint, as seen by the test-double core:
its handle, kind, physical flag (`TILEM_BREAK_PHYSICAL`), address range,
mask, and trigger-callback tag. -/
structure CoreBreakpoint where
  id : Nat
  kind : TilemBreakKind
  physical : Bool
  start : Nat
  end_ : Nat
  mask : Nat
  test : Option StepTestTag
deriving DecidableEq

/-- Modelled from the spec: the emulator core's breakpoint registry (§6,
"add_breakpoint(kind, start, end, mask, trigger_fn, ctx) -> handle" and
"remove_breakpoint(handle)"), a test double tracking registrations.
Handles are allocated fresh, starting at 1 so that 0 means "no handle". -/
structure TilemCore where
  regs : List CoreBreakpoint
  next : Nat
deriving DecidableEq

/-- Modelled from the spec: registering a core breakpoint returns a fresh
nonzero handle and records the registration. -/
def tilem_z80_add_breakpoint (c : TilemCore) (k : TilemBreakKind)
    (phys : Bool) (s e m : Nat) (t : Option StepTestTag) : Nat × TilemCore :=
  (c.next, ⟨⟨c.next, k, phys, s, e, m, t⟩ :: c.regs, c.next + 1⟩)

/-- Modelled from the spec: unregistering by handle deletes that
registration from the core's list. -/
def tilem_z80_remove_breakpoint (c : TilemCore) (id : Nat) : TilemCore :=
  ⟨c.regs.filter (fun b => b.id ≠ id), c.next⟩

/-- Allocator sanity for the test-double core: the next handle is nonzero
and every registered handle was allocated earlier. -/
def CoreInv (c : TilemCore) : Prop :=
  1 ≤ c.next ∧ ∀ b ∈ c.regs, b.id < c.next

/-- Embeds `sdl_dbg_get_core_bp_type`: maps a debugger breakpoint type and a
single access-mode bit to the core breakpoint kind (plus physical flag),
or `none` where the C function returns 0 (e.g. an exec bit on a port
breakpoint). For the opcode type the C switch returns
`TILEM_BREAK_EXECUTE` for every mode bit. -/
def sdl_dbg_get_core_bp_type (t : SdlDbgBpType) (modeBit : Nat) :
    Option (TilemBreakKind × Bool) :=
  match t with
  | .logical =>
    if modeBit = 4 then some (.memRead, false)
    else if modeBit = 2 then some (.memWrite, false)
    else if modeBit = 1 then some (.memExec, false)
    else none
  | .physical =>
    if modeBit = 4 then some (.memRead, true)
    else if modeBit = 2 then some (.memWrite, true)
    else if modeBit = 1 then some (.memExec, true)
    else none
  | .port =>
    if modeBit = 4 then some (.portRead, false)
    else if modeBit = 2 then some (.portWrite, false)
    else none
  | .opcode => some (.execute, false)

/-- One iteration of the registration loop in `sdl_dbg_set_bp`: if the
given access bit is set in `bp->mode` and the core kind is nonzero,
register a core breakpoint at `(start, end, mask)` and return its handle;
if the bit is set but the kind is 0 the old `id[i]` is left untouched;
if the bit is clear the handle is set to 0. -/
def sdl_dbg_set_bp_slot (core : TilemCore) (bp : TilemSdlDebugBreakpoint)
    (bit : Nat) (oldId : Nat) : Nat × TilemCore :=
  if bp.mode &&& bit ≠ 0 then
    match sdl_dbg_get_core_bp_type bp.type bit with
    | some (k, ph) =>
      tilem_z80_add_breakpoint core k ph bp.start bp.end_ bp.mask none
    | none => (oldId, core)
  else (0, core)

/-- Embeds `sdl_dbg_set_bp`: for an enabled breakpoint, register one core
breakpoint per set access bit (EXEC, then WRITE, then READ, matching the
loop order `i = 0, 1, 2`), storing the handles in `id[3]`. A disabled
breakpoint is left untouched. -/
def sdl_dbg_set_bp (core : TilemCore) (bp : TilemSdlDebugBreakpoint) :
    TilemSdlDebugBreakpoint × TilemCore :=
  if bp.disabled ≠ 0 then (bp, core)
  else
    let r0 := sdl_dbg_set_bp_slot core bp 1 bp.id0
    let r1 := sdl_dbg_set_bp_slot r0.2 bp 2 bp.id1
    let r2 := sdl_dbg_set_bp_slot r1.2 bp 4 bp.id2
    ({ bp with id0 := r0.1, id1 := r1.1, id2 := r2.1 }, r2.2)

/-- Embeds `sdl_dbg_unset_bp`: unregister every nonzero handle of the entry
(in slot order) and zero all three handles. -/
def sdl_dbg_unset_bp (core : TilemCore) (bp : TilemSdlDebugBreakpoint) :
    TilemSdlDebugBreakpoint × TilemCore :=
  let c1 := if bp.id0 ≠ 0 then tilem_z80_remove_breakpoint core bp.id0 else core
  let c2 := if bp.id1 ≠ 0 then tilem_z80_remove_breakpoint c1 bp.id1 else c1
  let c3 := if bp.id2 ≠ 0 then tilem_z80_remove_breakpoint c2 bp.id2 else c2
  ({ bp with id0 := 0, id1 := 0, id2 := 0 }, c3)

/-- Embeds `sdl_dbg_is_mem_exec_bp`: the entry watches execution in the logical
or physical memory space. -/
def sdl_dbg_is_mem_exec_bp (bp : TilemSdlDebugBreakpoint) : Bool :=
  (bp.mode &&& 1 ≠ 0) &&
    (bp.type = SdlDbgBpType.logical || bp.type = SdlDbgBpType.physical)

/-- Embeds `sdl_dbg_bp_matches_addr`: a disabled entry never matches; the entry
must live in the queried space; otherwise the masked address must fall in
the closed range `[start, end]`. -/
def sdl_dbg_bp_matches_addr (bp : TilemSdlDebugBreakpoint) (addr : Nat)
    (logical : Bool) : Bool :=
  if bp.disabled ≠ 0 then false
  else if logical ∧ bp.type ≠ SdlDbgBpType.logical then false
  else if ¬logical ∧ bp.type ≠ SdlDbgBpType.physical then false
  else (addr &&& bp.mask ≥ bp.start) && (addr &&& bp.mask ≤ bp.end_)

/-- Combined predicate used by the search loop in
`sdl_dbg_find_exec_breakpoint`: entry is a memory-exec breakpoint and its
range matches the address. -/
def sdl_dbg_exec_bp_hit (addr : Nat) (logical : Bool)
    (bp : TilemSdlDebugBreakpoint) : Bool :=
  sdl_dbg_is_mem_exec_bp bp && sdl_dbg_bp_matches_addr bp addr logical

/-- Embeds `sdl_dbg_find_exec_breakpoint`: linear scan for the first matching
memory-exec entry, returning its index (the C function returns -1,
modelled as `none`, when no entry matches). -/
def sdl_dbg_find_exec_breakpoint (bps : List TilemSdlDebugBreakpoint)
    (addr : Nat) (logical : Bool) : Option Nat :=
  match bps with
  | [] => none
  | bp :: rest =>
    if sdl_dbg_exec_bp_hit addr logical bp then some 0
    else (sdl_dbg_find_exec_breakpoint rest addr logical).map (· + 1)

/-- Debugger state relevant to the breakpoint store: the test-double
core, the `GArray` of breakpoints, and the "last used" type/mode
defaults recorded for the text codec. -/
structure SdlDbgStore where
  core : TilemCore
  breakpoints : List TilemSdlDebugBreakpoint
  last_bp_type : SdlDbgBpType
  last_bp_mode : Nat
deriving DecidableEq

/-- Embeds `sdl_dbg_toggle_breakpoint`: if some enabled memory-exec entry
matches `addr` in the current space, unregister and delete the first
such entry; otherwise create, register and append a fresh enabled
single-address exec breakpoint with the space's full-domain mask,
recording its type/mode as the new "last used" defaults. -/
def sdl_dbg_toggle_breakpoint (st : SdlDbgStore) (addr : Nat)
    (logical : Bool) : SdlDbgStore :=
  match sdl_dbg_find_exec_breakpoint st.breakpoints addr logical with
  | some idx =>
    let bp := st.breakpoints.getD idx default
    let r := sdl_dbg_unset_bp st.core bp
    { st with core := r.2, breakpoints := st.breakpoints.eraseIdx idx }
  | none =>
    let mask : Nat := if logical then 0xffff else 0xffffffff
    let bp0 : TilemSdlDebugBreakpoint :=
      { type := if logical then .logical else .physical
        mode := 1
        start := addr &&& mask
        end_ := addr &&& mask
        mask := mask
        disabled := 0
        id0 := 0, id1 := 0, id2 := 0 }
    let r := sdl_dbg_set_bp st.core bp0
    { core := r.2
      breakpoints := st.breakpoints ++ [r.1]
      last_bp_type := r.1.type
      last_bp_mode := r.1.mode }

/-- User-visible view of a breakpoint (everything except the core
registration handles). -/
structure SdlDbgBpView where
  type : SdlDbgBpType
  mode : Nat
  start : Nat
  end_ : Nat
  mask : Nat
  disabled : Nat
deriving DecidableEq

/-- Projection of a store entry to its user-visible fields. -/
def sdlDbgBpView (bp : TilemSdlDebugBreakpoint) : SdlDbgBpView :=
  ⟨bp.type, bp.mode, bp.start, bp.end_, bp.mask, bp.disabled⟩

/-- The user-visible breakpoint that `sdl_dbg_toggle_breakpoint` creates
when no entry matches: single-address, exec-only, enabled, full-domain
mask for the space. -/
def sdlDbgCanonicalView (addr : Nat) (logical : Bool) : SdlDbgBpView :=
  let mask : Nat := if logical then 0xffff else 0xffffffff
  ⟨if logical then .logical else .physical, 1,
    addr &&& mask, addr &&& mask, mask, 0⟩

/-- The user-visible entries of a store that are enabled memory-exec
breakpoints matching `addr` in the given space — "the store's set of exec
breakpoints matching that address". -/
def sdlDbgMatchingExecViews (bps : List TilemSdlDebugBreakpoint)
    (addr : Nat) (logical : Bool) : List SdlDbgBpView :=
  (bps.filter (sdl_dbg_exec_bp_hit addr logical)).map sdlDbgBpView

/-- The breakpoint record that `sdl_dbg_toggle_breakpoint` builds before
registering it, exactly as `memset` plus the field assignments produce
it. -/
def sdlDbgCanonicalBp (addr : Nat) (logical : Bool) :
    TilemSdlDebugBreakpoint :=
  { type := if logical then .logical else .physical
    mode := 1
    start := addr &&& (if logical then 0xffff else 0xffffffff)
    end_ := addr &&& (if logical then 0xffff else 0xffffffff)
    mask := if logical then 0xffff else 0xffffffff
    disabled := 0
    id0 := 0, id1 := 0, id2 := 0 }

/-- Index-prefix normalization shared by `sdl_dbg_bptest_step_over` and
`sdl_dbg_bptest_finish`: the C lines `if ((op & ~0x20ff) == 0xdd00)
op &= 0xff;` with `op` a 32-bit `dword`, so `~0x20ff` is `0xffffdf00`.
An opcode of the form `0xDDxx` or `0xFDxx` is reduced to its low byte. -/
def normalizeIndexOp (op : Nat) : Nat :=
  if op &&& 0xffffdf00 = 0xdd00 then op &&& 0xff else op

/-- Embeds `sdl_dbg_bptest_step` (the step-into trigger test), a pure function
of the fetched opcode, the pending-interrupt lines `calc->z80.interrupts`
and the interrupt-enable flip-flop `calc->z80.r.iff1`; `~0x2000` on a
`dword` is `0xffffdfff`. Returns 1 (stop) or 0 (continue). -/
def sdl_dbg_bptest_step (op interrupts iff1 : Nat) : Nat :=
  if op ≠ 0x76 ∧ op &&& 0xffffdfff ≠ 0xdd76 then 1
  else if interrupts ≠ 0 ∧ iff1 ≠ 0 then 1
  else 0

/-- Embeds `sdl_dbg_bptest_step_over` (the step-over trigger test): normalize an
index prefix, pick the destination — the CPU's current `pc` for the
branch/return/jump families recognized by the mask tables (`~0x38` on a
`dword` is `0xffffffc7`), else the precomputed `dbg->step_next_addr` —
mask it to 16 bits, then remove the live session breakpoint `step_bp`
and register a plain `TILEM_BREAK_MEM_EXEC` breakpoint (no callback) at
exactly that destination. Always returns 0 (continue). The result is
`(return value, new step_bp handle, new core state)`. -/
def sdl_dbg_bptest_step_over (core : TilemCore)
    (pc op step_bp step_next_addr : Nat) : Nat × Nat × TilemCore :=
  let op1 := normalizeIndexOp op
  let destaddr0 :=
    if op1 = 0xc3 ∨ op1 = 0xc9 ∨ op1 = 0xe9 ∨
        op1 &&& 0xffffffc7 = 0 ∨ op1 &&& 0xffffffc7 = 0xc2 ∨
        op1 &&& 0xffffffc7 = 0xc0 ∨ op1 &&& 0xffffffc7 = 0xed45 then
      pc
    else
      step_next_addr
  let destaddr := destaddr0 &&& 0xffff
  let core1 := tilem_z80_remove_breakpoint core step_bp
  let r := tilem_z80_add_breakpoint core1 .memExec false destaddr destaddr
    0xffff none
  (0, r.1, r.2)

/-- Embeds `sdl_dbg_bptest_finish` (the finish trigger test), a pure function of
the 16-bit stack pointer `calc->z80.r.sp.w.l`, the captured threshold
`exitsp`, the fetched opcode, and the flag register `calc->z80.r.af.b.l`.
Nonzero means stop. The C `return (f & 0x40)` style cases return the raw
masked flag value. -/
def sdl_dbg_bptest_finish (sp exitsp op f : Nat) : Nat :=
  if sp ≤ exitsp then 0
  else
    let op1 := normalizeIndexOp op
    if op1 = 0xc9 ∨ op1 = 0xe9 ∨ op1 = 0xed45 ∨ op1 = 0xed4d ∨
        op1 = 0xed55 ∨ op1 = 0xed5d ∨ op1 = 0xed65 ∨ op1 = 0xed6d ∨
        op1 = 0xed75 ∨ op1 = 0xed7d then 1
    else if op1 = 0xc0 then (if f &&& 0x40 = 0 then 1 else 0)
    else if op1 = 0xc8 then f &&& 0x40
    else if op1 = 0xd0 then (if f &&& 0x01 = 0 then 1 else 0)
    else if op1 = 0xd8 then f &&& 0x01
    else if op1 = 0xe0 then (if f &&& 0x04 = 0 then 1 else 0)
    else if op1 = 0xe8 then f &&& 0x04
    else if op1 = 0xf0 then (if f &&& 0x80 = 0 then 1 else 0)
    else if op1 = 0xf8 then f &&& 0x80
    else 0

/-- The opcodes (after index-prefix normalization) on which the step-over
trigger re-targets itself to the current program counter, enumerated from
the spec's wording "call-class, return-class, unconditional-jump, or
conditional-branch-class opcode per the fixed opcode/mask tables":
`JP nn`, `RET`, `JP (HL)`, the relative-jump row `0x00..0x38` (step 8:
NOP, EX AF, DJNZ, JR, JR cc), the `JP cc,nn` column, the `RET cc` column,
and the `RETN`/`RETI` family `ED 45..ED 7D` (step 8). -/
def stepOverRetargetOps : List Nat :=
  [0xc3, 0xc9, 0xe9,
   0x00, 0x08, 0x10, 0x18, 0x20, 0x28, 0x30, 0x38,
   0xc2, 0xca, 0xd2, 0xda, 0xe2, 0xea, 0xf2, 0xfa,
   0xc0, 0xc8, 0xd0, 0xd8, 0xe0, 0xe8, 0xf0, 0xf8,
   0xed45, 0xed4d, 0xed55, 0xed5d, 0xed65, 0xed6d, 0xed75, 0xed7d]

/-- Z flag of the Z80 flag register (bit 6). -/
def flagZ (f : Nat) : Prop := f.testBit 6 = true

/-- Carry flag of the Z80 flag register (bit 0). -/
def flagC (f : Nat) : Prop := f.testBit 0 = true

/-- Parity/overflow flag of the Z80 flag register (bit 2). -/
def flagPV (f : Nat) : Prop := f.testBit 2 = true

/-- Sign flag of the Z80 flag register (bit 7). -/
def flagS (f : Nat) : Prop := f.testBit 7 = true

/-- The unconditional return forms recognized by the finish trigger:
`RET`, `JP (HL)` and the extended `RETN`/`RETI` family. -/
def finishUncondRets : List Nat :=
  [0xc9, 0xe9, 0xed45, 0xed4d, 0xed55, 0xed5d, 0xed65, 0xed6d, 0xed75,
   0xed7d]

/-- Spec-level return condition for the finish trigger: the (normalized)
opcode is an unconditional return form, or a conditional return form
whose condition — from the fixed opcode-to-flag-bit table covering Z,
C, sign, and parity/overflow — is satisfied by the flag register. -/
def finishRetSpec (op f : Nat) : Prop :=
  op ∈ finishUncondRets ∨
  (op = 0xc0 ∧ ¬flagZ f) ∨ (op = 0xc8 ∧ flagZ f) ∨
  (op = 0xd0 ∧ ¬flagC f) ∨ (op = 0xd8 ∧ flagC f) ∨
  (op = 0xe0 ∧ ¬flagPV f) ∨ (op = 0xe8 ∧ flagPV f) ∨
  (op = 0xf0 ∧ ¬flagS f) ∨ (op = 0xf8 ∧ flagS f)

/-- Claim C2 as stated: on each fire of the step-over trigger, for a
non-re-target-class opcode the test itself returns continue unless the
fetch address (the CPU's current program counter) equals the previously
computed `over_target` (`step_next_addr`), in which case it returns stop
(nonzero). -/
def stepOverClaimAsStated : Prop :=
  ∀ (core : TilemCore) (pc op step_bp step_next_addr : Nat),
    normalizeIndexOp op ∉ stepOverRetargetOps →
    ((sdl_dbg_bptest_step_over core pc op step_bp step_next_addr).1 ≠ 0 ↔
      pc = step_next_addr)

/-- Step-controller state: the test-double core, the single session
handle `dbg->step_bp` (0 when idle), the step-over target
`dbg->step_next_addr`, and the ghost list `sessLive` of session-created
handles still registered with the core (updated in lock step with every
core call the controller makes, so it is determined by the code paths). -/
structure SdlDbgStepCtl where
  core : TilemCore
  step_bp : Nat
  step_next_addr : Nat
  sessLive : List Nat
deriving DecidableEq

/-- Embeds `sdl_dbg_cancel_step_bp`: if a session handle is live, unregister it
and zero `step_bp`; otherwise do nothing. -/
def sdl_dbg_cancel_step_bp (s : SdlDbgStepCtl) : SdlDbgStepCtl :=
  if s.step_bp = 0 then s
  else
    { core := tilem_z80_remove_breakpoint s.core s.step_bp
      step_bp := 0
      step_next_addr := s.step_next_addr
      sessLive := s.sessLive.filter (fun h => h ≠ s.step_bp) }

/-- Embeds `sdl_dbg_run_with_step_condition`: register a `TILEM_BREAK_EXECUTE`
trigger (range and mask 0) carrying the given trigger-test callback and
store its handle in `step_bp`. -/
def sdl_dbg_run_with_step_condition (s : SdlDbgStepCtl) (t : StepTestTag) :
    SdlDbgStepCtl :=
  let r := tilem_z80_add_breakpoint s.core .execute false 0 0 0 (some t)
  { core := r.2
    step_bp := r.1
    step_next_addr := s.step_next_addr
    sessLive := s.sessLive ++ [r.1] }

/-- Embeds `sdl_dbg_step`: no-op unless the emulator is paused; otherwise cancel
any previous session breakpoint, then register the step-into trigger. -/
def sdl_dbg_step (paused : Bool) (s : SdlDbgStepCtl) : SdlDbgStepCtl :=
  if paused then
    sdl_dbg_run_with_step_condition (sdl_dbg_cancel_step_bp s) .step
  else s

/-- Embeds `sdl_dbg_step_over`: no-op unless paused; otherwise cancel the
previous session breakpoint, record the next-instruction address obtained
from the disassembler in `step_next_addr`, and register the step-over
trigger. -/
def sdl_dbg_step_over (paused : Bool) (nextAddr : Nat)
    (s : SdlDbgStepCtl) : SdlDbgStepCtl :=
  if paused then
    let s1 := sdl_dbg_cancel_step_bp s
    sdl_dbg_run_with_step_condition
      { s1 with step_next_addr := nextAddr } .stepOver
  else s

/-- Embeds `sdl_dbg_finish`: no-op unless paused; otherwise cancel the previous
session breakpoint and register the finish trigger (the captured stack
pointer travels in the callback context, which does not affect the
registration bookkeeping modelled here). -/
def sdl_dbg_finish (paused : Bool) (s : SdlDbgStepCtl) : SdlDbgStepCtl :=
  if paused then
    sdl_dbg_run_with_step_condition (sdl_dbg_cancel_step_bp s) .finish
  else s

/-- A fire of the step-over trigger as it affects the controller state:
`sdl_dbg_bptest_step_over` removes the old session breakpoint and
registers its replacement, whose handle becomes the new `step_bp`. -/
def sdl_dbg_step_over_fire (pc op : Nat) (s : SdlDbgStepCtl) :
    SdlDbgStepCtl :=
  let r := sdl_dbg_bptest_step_over s.core pc op s.step_bp s.step_next_addr
  { core := r.2.2
    step_bp := r.2.1
    step_next_addr := s.step_next_addr
    sessLive := s.sessLive.filter (fun h => h ≠ s.step_bp) ++ [r.2.1] }

/-- The events that touch the session breakpoint in `sdldebugger.c`:
the three stepping commands (each guarded by `emu->paused`), a fire of
the step-over trigger, and a cancellation (performed by
`sdl_dbg_cancel_step_bp` from show/hide/calc-changed paths). -/
inductive StepEvent where
  | intoCmd (paused : Bool)
  | overCmd (paused : Bool) (nextAddr : Nat)
  | finishCmd (paused : Bool)
  | overFire (pc op : Nat)
  | cancelCmd
deriving DecidableEq

/-- Interpretation of one step-controller event. -/
def stepEventRun (e : StepEvent) (s : SdlDbgStepCtl) : SdlDbgStepCtl :=
  match e with
  | .intoCmd paused => sdl_dbg_step paused s
  | .overCmd paused nextAddr => sdl_dbg_step_over paused nextAddr s
  | .finishCmd paused => sdl_dbg_finish paused s
  | .overFire pc op => sdl_dbg_step_over_fire pc op s
  | .cancelCmd => sdl_dbg_cancel_step_bp s

/-- Initial controller state: empty core registry (handles from 1),
`step_bp = 0` (the struct is zero-initialized at debugger creation). -/
def stepCtlInit : SdlDbgStepCtl := ⟨⟨[], 1⟩, 0, 0, []⟩

/-- Run a sequence of step-controller events from the initial state. -/
def stepCtlRun (evs : List StepEvent) : SdlDbgStepCtl :=
  evs.foldl (fun s e => stepEventRun e s) stepCtlInit

/-- Controller invariant: the ghost list of live session handles is empty
when `step_bp = 0` and exactly `[step_bp]` otherwise; every live session
handle is registered with the core; handle allocation stays nonzero. -/
def StepCtlInv (s : SdlDbgStepCtl) : Prop :=
  s.sessLive = (if s.step_bp = 0 then [] else [s.step_bp]) ∧
  (∀ h ∈ s.sessLive, ∃ b ∈ s.core.regs, b.id = h) ∧
  1 ≤ s.core.next

/-- Embeds `sdl_dbg_disasm_next_addr`: ask the disassembly service (modelled as
an arbitrary function `f`, since `tilem_disasm_disassemble` is an
external collaborator) for the next instruction boundary, forcing
progress: any result at or below `addr` becomes `addr + 1`. -/
def sdl_dbg_disasm_next_addr (f : Nat → Nat) (addr : Nat) : Nat :=
  let next := f addr
  if next ≤ addr then addr + 1 else next

/-- Embeds `sdl_dbg_address_at_line`: walk `line` instruction boundaries forward
from `base`. -/
def sdl_dbg_address_at_line (f : Nat → Nat) (base : Nat) : Nat → Nat
  | 0 => base
  | line + 1 =>
    sdl_dbg_address_at_line f (sdl_dbg_disasm_next_addr f base) line

/-- Embeds `sdl_dbg_find_visible_line`: walk up to `lines` boundaries forward
from `base`, returning the first index whose address equals `addr`
modulo 2^16 (the C loop compares `(cur & 0xffff) == (addr & 0xffff)`);
`none` models the C return value -1. -/
def sdl_dbg_find_visible_line (f : Nat → Nat) (base lines addr : Nat) :
    Option Nat :=
  match lines with
  | 0 => none
  | n + 1 =>
    if base &&& 0xffff = addr &&& 0xffff then some 0
    else
      (sdl_dbg_find_visible_line f (sdl_dbg_disasm_next_addr f base) n
        addr).map (· + 1)

/-- Claim C9 as stated: whenever `addr` is one of the first `N`
instruction boundaries decoded forward from `base`, the line search
returns an index whose `addr_at_line` is exactly `addr`; otherwise it
returns "not found". -/
def findVisibleLineClaimAsStated : Prop :=
  ∀ (f : Nat → Nat) (base lines addr : Nat),
    ((∃ i, i < lines ∧ sdl_dbg_address_at_line f base i = addr) →
      ∃ i, sdl_dbg_find_visible_line f base lines addr = some i ∧
        sdl_dbg_address_at_line f base i = addr) ∧
    ((∀ i, i < lines → sdl_dbg_address_at_line f base i ≠ addr) →
      sdl_dbg_find_visible_line f base lines addr = none)

/-- Models `g_ascii_tolower`: ASCII-only lowercasing. -/
def g_ascii_tolower (c : Char) : Char :=
  if 'A' ≤ c ∧ c ≤ 'Z' then Char.ofNat (c.toNat + 32) else c

/-- Models `g_ascii_strcasecmp(a, b) == 0`: ASCII case-insensitive equality. -/
def gAsciiCaseEq (a b : List Char) : Bool :=
  a.map g_ascii_tolower == b.map g_ascii_tolower

/-- Models `g_ascii_strncasecmp(hay, needle, strlen needle) == 0`: the needle is
an ASCII case-insensitive prefix of the haystack. -/
def gAsciiCaseNeedleAt (needle hay : List Char) : Bool :=
  match needle, hay with
  | [], _ => true
  | _ :: _, [] => false
  | c :: cs, d :: ds =>
    (g_ascii_tolower c == g_ascii_tolower d) && gAsciiCaseNeedleAt cs ds

/-- Scan loop of `sdl_dbg_strcasestr`: try the needle at every position
of the haystack (the C loop runs `for (p = haystack; *p; p++)`). -/
def sdlDbgStrcasestrScan (needle : List Char) : List Char → Bool
  | [] => false
  | c :: rest =>
    gAsciiCaseNeedleAt needle (c :: rest) || sdlDbgStrcasestrScan needle rest

/-- Embeds `sdl_dbg_strcasestr`: ASCII case-insensitive substring test; an empty
needle matches immediately. -/
def sdl_dbg_strcasestr (hay needle : List Char) : Bool :=
  if needle.isEmpty then true else sdlDbgStrcasestrScan needle hay

/-- The character set of `g_ascii_isspace`, used by `g_strstrip`. -/
def gAsciiIsSpace (c : Char) : Bool :=
  c = ' ' || c = '\t' || c = '\n' || c = '\x0b' || c = '\x0c' || c = '\r'

/-- Models `g_strstrip`: drop leading and trailing ASCII whitespace. -/
def g_strstrip (s : List Char) : List Char :=
  ((s.dropWhile gAsciiIsSpace).reverse.dropWhile gAsciiIsSpace).reverse

/-- Models `g_strsplit_set(input, " \t", -1)`: split at every space or tab,
keeping empty pieces. -/
def gStrsplitSet : List Char → List (List Char)
  | [] => [[]]
  | c :: rest =>
    match gStrsplitSet rest with
    | [] => [[c]]
    | t :: ts =>
      if c = ' ' ∨ c = '\t' then [] :: t :: ts else (c :: t) :: ts

/-- ASCII hexadecimal digit test (the digits accepted by `strtol` in
base 16). -/
def isHexDigitCh (c : Char) : Bool :=
  ('0' ≤ c && c ≤ '9') || ('a' ≤ c && c ≤ 'f') || ('A' ≤ c && c ≤ 'F')

/-- Value of an ASCII hexadecimal digit. -/
def hexDigitVal (c : Char) : Nat :=
  if '0' ≤ c ∧ c ≤ '9' then c.toNat - 48
  else if 'a' ≤ c ∧ c ≤ 'f' then c.toNat - 87
  else c.toNat - 55

/-- Accumulate the value of a hexadecimal digit run. -/
def hexAccum (ds : List Char) : Nat :=
  ds.foldl (fun acc c => acc * 16 + hexDigitVal c) 0

/-- Models `strtol(n, &e, 16)` followed by the C assignment of the (signed
long) result to a `dword`, reduced modulo 2^32. Returns `none` when no
conversion was performed (`e == n`); otherwise the converted value and
the unconsumed tail. Handles the optional sign and the optional `0x`
prefix that `strtol` itself accepts in base 16 (when followed by a hex
digit; a bare `0x` consumes only the `0`). Saturation of values beyond
the `long` range is not modelled; inputs that long do not occur here. -/
def strtol16 (s : List Char) : Option (Nat × List Char) :=
  let s0 := s.dropWhile gAsciiIsSpace
  let neg := s0.head? = some '-'
  let s1 := if s0.head? = some '-' ∨ s0.head? = some '+' then s0.drop 1
    else s0
  let s2 :=
    match s1 with
    | '0' :: x :: rest =>
      if (x = 'x' ∨ x = 'X') ∧ (rest.head?.map isHexDigitCh = some true)
      then rest else s1
    | _ => s1
  let digits := s2.takeWhile isHexDigitCh
  let rest := s2.dropWhile isHexDigitCh
  if digits.isEmpty then
    match s1 with
    | '0' :: x :: r2 =>
      if x = 'x' ∨ x = 'X' then some (0, x :: r2) else none
    | _ => none
  else
    let v := hexAccum digits % 4294967296
    some (if neg then (4294967296 - v) % 4294967296 else v, rest)

/-- Embeds `sdl_dbg_parse_num`: strip an optional `$` or `0x`/`0X` prefix, try
hexadecimal conversion (allowing one trailing `h`/`H`), and fall back to
the disassembler's symbol table (`tilem_disasm_get_label`, an external
collaborator modelled as the `labels` parameter) applied to the whole
original token. -/
def sdl_dbg_parse_num (labels : List Char → Option Nat) (s : List Char) :
    Option Nat :=
  if s.isEmpty then none
  else
    let n :=
      if s.head? = some '$' then s.drop 1
      else
        match s with
        | '0' :: x :: _ => if x = 'x' ∨ x = 'X' then s.drop 2 else s
        | _ => s
    match strtol16 n with
    | some (v, rest) =>
      let rest1 :=
        if rest.head? = some 'h' ∨ rest.head? = some 'H' then rest.drop 1
        else rest
      if rest1.isEmpty then some v else labels s
    | none => labels s

/-- Hardware constants consulted by `sdl_dbg_parse_physical`
(`calc->hw.rampagemask`, `.ramsize`, `.romsize`). -/
structure SdlHwConsts where
  rampagemask : Nat
  ramsize : Nat
  romsize : Nat

/-- Embeds `sdl_dbg_parse_physical`: a token without `:` is parsed as a plain
number; a `PAGE:OFFSET` token is converted to a flat physical address
(offset masked to 14 bits; pages at or above `rampagemask` map into RAM
modulo `ramsize` offset by `romsize`, others into ROM modulo `romsize`).
The C function copies the token into a 128-byte buffer first, truncating
it; all `dword` additions are modulo 2^32. -/
def sdl_dbg_parse_physical (hw : SdlHwConsts)
    (labels : List Char → Option Nat) (s : List Char) : Option Nat :=
  let buf := s.take 127
  if ¬buf.contains ':' then sdl_dbg_parse_num labels s
  else
    let pagePart := buf.takeWhile (fun c => c ≠ ':')
    let addrPart := (buf.dropWhile (fun c => c ≠ ':')).drop 1
    match sdl_dbg_parse_num labels pagePart with
    | none => none
    | some page =>
      match sdl_dbg_parse_num labels addrPart with
      | none => none
      | some addr0 =>
        let addr1 := addr0 &&& 0x3fff
        if page ≥ hw.rampagemask then
          let a := (addr1 + (page - hw.rampagemask) * 16384) % 4294967296
          some ((a % hw.ramsize + hw.romsize) % 4294967296)
        else
          let a := (addr1 + page * 16384) % 4294967296
          some (a % hw.romsize)

/-- Embeds `sdl_dbg_parse_bp_type`: keyword table for the address-space token;
`none` models the `-1` fallback used at the call site. -/
def sdl_dbg_parse_bp_type (s : List Char) : Option SdlDbgBpType :=
  if s.isEmpty then none
  else if gAsciiCaseEq s ("logical".data) ∨ gAsciiCaseEq s ("log".data) ∨
      gAsciiCaseEq s ("l".data) ∨ gAsciiCaseEq s ("mem".data) then
    some .logical
  else if gAsciiCaseEq s ("physical".data) ∨ gAsciiCaseEq s ("phys".data) ∨
      gAsciiCaseEq s ("abs".data) ∨ gAsciiCaseEq s ("p".data) then
    some .physical
  else if gAsciiCaseEq s ("port".data) ∨ gAsciiCaseEq s ("io".data) ∨
      gAsciiCaseEq s ("i/o".data) then
    some .port
  else if gAsciiCaseEq s ("opcode".data) ∨ gAsciiCaseEq s ("op".data) then
    some .opcode
  else none

/-- Embeds `sdl_dbg_parse_bp_mode`: an access-mode token contributes READ (4)
when it contains the substring "read" (case-insensitively) or the
character `r` (note: `strchr` is case-sensitive), WRITE (2) for
"write"/`w`, EXEC (1) for "exec"/`x`; `none` models `-1` (no bit
recognized or empty token). -/
def sdl_dbg_parse_bp_mode (s : List Char) : Option Nat :=
  if s.isEmpty then none
  else
    let m :=
      (if sdl_dbg_strcasestr s ("read".data) || s.contains 'r' then 4
        else 0) +
      (if sdl_dbg_strcasestr s ("write".data) || s.contains 'w' then 2
        else 0) +
      (if sdl_dbg_strcasestr s ("exec".data) || s.contains 'x' then 1
        else 0)
    if m = 0 then none else some m

/-- Embeds `sdl_dbg_parse_bp_addr`: split the address token at the first `-`
into `START` and optional `END`, parsing each as physical or plain
number according to the breakpoint type. Error strings are those the C
function writes into its `err` buffer. -/
def sdl_dbg_parse_bp_addr (hw : SdlHwConsts)
    (labels : List Char → Option Nat) (typ : SdlDbgBpType)
    (token : List Char) : Except String (Nat × Nat) :=
  let first := token.takeWhile (fun c => c ≠ '-')
  let rest := token.dropWhile (fun c => c ≠ '-')
  let second : Option (List Char) :=
    if rest.isEmpty then none else some (rest.drop 1)
  let parseOne : List Char → Option Nat :=
    fun t =>
      if typ = .physical then sdl_dbg_parse_physical hw labels t
      else sdl_dbg_parse_num labels t
  match parseOne first with
  | none => .error "Invalid address."
  | some start =>
    match second with
    | some s2 =>
      if s2.isEmpty then .ok (start, start)
      else
        match parseOne s2 with
        | none => .error "Invalid end address."
        | some e => .ok (start, e)
    | none => .ok (start, start)

/-- Accumulator state of the token loop in `sdl_dbg_parse_breakpoint`. -/
structure SdlParseBpState where
  typ : SdlDbgBpType
  typeSet : Bool
  mode : Nat
  modeSet : Bool
  mask : Nat
  haveMask : Bool
  addrToken : Option (List Char)

/-- Token loop of `sdl_dbg_parse_breakpoint`: each stripped nonempty
token is consumed as a `mask=`/`mask:` assignment, the first recognized
type keyword, the first recognized mode token, or (if none of those) the
address token; later unrecognized tokens are ignored. -/
def sdlDbgParseBpTokens (labels : List Char → Option Nat) :
    List (List Char) → SdlParseBpState → Except String SdlParseBpState
  | [], st => .ok st
  | tok0 :: rest, st =>
    let tok := g_strstrip tok0
    if tok.isEmpty then sdlDbgParseBpTokens labels rest st
    else if gAsciiCaseNeedleAt ("mask=".data) tok then
      match sdl_dbg_parse_num labels (tok.drop 5) with
      | none => .error "Invalid mask."
      | some m =>
        sdlDbgParseBpTokens labels rest
          { st with mask := m, haveMask := true }
    else if gAsciiCaseNeedleAt ("mask:".data) tok then
      match sdl_dbg_parse_num labels (tok.drop 5) with
      | none => .error "Invalid mask."
      | some m =>
        sdlDbgParseBpTokens labels rest
          { st with mask := m, haveMask := true }
    else
      match if st.typeSet then none else sdl_dbg_parse_bp_type tok with
      | some t =>
        sdlDbgParseBpTokens labels rest
          { st with typ := t, typeSet := true }
      | none =>
        match if st.modeSet then none else sdl_dbg_parse_bp_mode tok with
        | some m =>
          sdlDbgParseBpTokens labels rest
            { st with mode := m, modeSet := true }
        | none =>
          match st.addrToken with
          | none =>
            sdlDbgParseBpTokens labels rest
              { st with addrToken := some tok }
          | some _ => sdlDbgParseBpTokens labels rest st

/-- Embeds `sdl_dbg_parse_breakpoint`: tokenize the input, fold the token loop
starting from the "last used" type/mode defaults, then apply the C
function's fixups in order — force Exec for opcode space, restrict and
default the mode by space, reject a zero mode, parse the address token,
choose the space default mask (overridden by an explicit mask only for
physical/opcode), pre-mask both bounds, and reject `end < start`.
A successfully parsed breakpoint is enabled with zero handles (the C
code `memset`s the output). -/
def sdl_dbg_parse_breakpoint (hw : SdlHwConsts)
    (labels : List Char → Option Nat) (lastType : SdlDbgBpType)
    (lastMode : Nat) (input : List Char) :
    Except String TilemSdlDebugBreakpoint :=
  if input.isEmpty then .error "Empty input."
  else
    match sdlDbgParseBpTokens labels (gStrsplitSet input)
        ⟨lastType, false, lastMode, false, 0, false, none⟩ with
    | .error e => .error e
    | .ok st =>
      match st.addrToken with
      | none => .error "Missing address."
      | some atok =>
        let typ := st.typ
        let mode1 :=
          if typ = .opcode then 1
          else if typ = .port then st.mode &&& 6
          else st.mode &&& 7
        let mode2 := if typ = .port ∧ mode1 = 0 then 4 else mode1
        let mode3 :=
          if (typ = .logical ∨ typ = .physical) ∧ mode2 = 0 then 1
          else mode2
        if typ ≠ .opcode ∧ mode3 = 0 then .error "Invalid access mode."
        else
          match sdl_dbg_parse_bp_addr hw labels typ atok with
          | .error e => .error e
          | .ok (s, e) =>
            let mask0 : Nat :=
              if typ = .logical then 0xffff
              else if typ = .port then 0xff
              else 0xffffffff
            let mask :=
              if st.haveMask ∧ (typ = .physical ∨ typ = .opcode) then
                st.mask
              else mask0
            let s' := s &&& mask
            let e' := e &&& mask
            if e' < s' then .error "End < start."
            else .ok ⟨typ, mode3, s', e', mask, 0, 0, 0, 0⟩

/-- Digit-emission loop for uppercase hexadecimal printing, with an
explicit fuel bound to keep the recursion structural. -/
def hexDigitsUpperAux : Nat → Nat → List Char
  | 0, _ => []
  | fuel + 1, n =>
    if n < 16 then [("0123456789ABCDEF".data).getD n '0']
    else
      hexDigitsUpperAux fuel (n / 16) ++
        [("0123456789ABCDEF".data).getD (n % 16) '0']

/-- Uppercase hexadecimal digits of `n` (no leading zeros; `0` gives
`"0"`), as printed by `%X`. -/
def hexDigitsUpper (n : Nat) : List Char := hexDigitsUpperAux (n + 1) n

/-- Zero-padding to a field width, as printed by `%0*X` (wider values
keep all their digits). -/
def zeroPad (w : Nat) (ds : List Char) : List Char :=
  List.replicate (w - ds.length) '0' ++ ds

/-- Embeds `sdl_dbg_format_breakpoint`: type label (`L`/`P`/`IO`/`OP`), mode
letters in fixed R, W, X order, the address (single value or
`START-END`) zero-padded to a width derived from the space and whether
the upper bound exceeds 16 bits, and a `(disabled)` suffix. -/
def sdl_dbg_format_breakpoint (bp : TilemSdlDebugBreakpoint) :
    List Char :=
  let typeLabel : List Char :=
    match bp.type with
    | .logical => ['L']
    | .physical => ['P']
    | .port => ['I', 'O']
    | .opcode => ['O', 'P']
  let addrWidth : Nat :=
    match bp.type with
    | .logical => 4
    | .physical => if bp.end_ > 0xffff then 6 else 4
    | .port => 2
    | .opcode => if bp.end_ > 0xffff then 6 else 2
  let modeBuf : List Char :=
    (if bp.mode &&& 4 ≠ 0 then ['R'] else []) ++
    (if bp.mode &&& 2 ≠ 0 then ['W'] else []) ++
    (if bp.mode &&& 1 ≠ 0 then ['X'] else [])
  let addrBuf : List Char :=
    if bp.start = bp.end_ then zeroPad addrWidth (hexDigitsUpper bp.start)
    else
      zeroPad addrWidth (hexDigitsUpper bp.start) ++ ['-'] ++
        zeroPad addrWidth (hexDigitsUpper bp.end_)
  typeLabel ++ [' '] ++ modeBuf ++ [' '] ++ addrBuf ++
    (if bp.disabled ≠ 0 then (" (disabled)".data) else [])

/-- Hardware constants of a typical calculator model; the logical-space
code paths exercised below never consult them. -/
def sdlHwSample : SdlHwConsts := ⟨0x20, 0x8000, 0x80000⟩

/-- The breakpoint used to exhibit the round-trip failure: an enabled
logical exec breakpoint at 0x8000, exactly what toggling a breakpoint
at 0x8000 stores. -/
def sdlDbgRoundTripBp : TilemSdlDebugBreakpoint :=
  ⟨.logical, 1, 0x8000, 0x8000, 0xffff, 0, 0, 0, 0⟩

/-- Spec-level destination of the step-over trampoline after a fire: the
current program counter for a re-target-class opcode, the previously
computed `over_target` otherwise, reduced to 16 bits. -/
def stepOverSpecDest (pc step_next_addr op : Nat) : Nat :=
  (if normalizeIndexOp op ∈ stepOverRetargetOps then pc
    else step_next_addr) % 65536

/-- Bitwise AND splits across a power-of-two digit boundary. -/
theorem nat_land_split (k hi lo HI LO : Nat) (hlo : lo < 2 ^ k)
    (hLO : LO < 2 ^ k) :
    (2 ^ k * hi + lo) &&& (2 ^ k * HI + LO) =
      2 ^ k * (hi &&& HI) + (lo &&& LO) := by
  apply Nat.eq_of_testBit_eq
  intro j
  have hb : lo &&& LO < 2 ^ k := Nat.and_lt_two_pow _ hLO
  rw [Nat.testBit_and, Nat.testBit_mul_pow_two_add _ hlo,
    Nat.testBit_mul_pow_two_add _ hLO, Nat.testBit_mul_pow_two_add _ hb]
  by_cases h : j < k
  · simp [h]
  · simp [h, Nat.testBit_and]

/-- Specialization of `nat_land_split` at the 2^16 boundary. -/
theorem nat_land_split_65536 (hi lo HI LO : Nat) (hlo : lo < 65536)
    (hLO : LO < 65536) :
    (65536 * hi + lo) &&& (65536 * HI + LO) =
      65536 * (hi &&& HI) + (lo &&& LO) :=
  nat_land_split 16 hi lo HI LO (by norm_num [hlo]) (by norm_num [hLO])

/-- Specialization of `nat_land_split` at the 2^8 boundary. -/
theorem nat_land_split_256 (hi lo HI LO : Nat) (hlo : lo < 256)
    (hLO : LO < 256) :
    (256 * hi + lo) &&& (256 * HI + LO) =
      256 * (hi &&& HI) + (lo &&& LO) :=
  nat_land_split 8 hi lo HI LO (by norm_num [hlo]) (by norm_num [hLO])

/-- AND with the byte mask is reduction modulo 256. -/
theorem and_255_eq (y : Nat) : y &&& 255 = y % 256 := by
  have h3 : y &&& (2 ^ 8 - 1) = y % 2 ^ 8 := Nat.and_pow_two_sub_one_eq_mod y 8
  calc y &&& 255 = y &&& (2 ^ 8 - 1) := by norm_num
    _ = y % 2 ^ 8 := h3
    _ = y % 256 := by norm_num

/-- AND with the 16-bit mask is reduction modulo 2^16. -/
theorem and_65535_eq (y : Nat) : y &&& 65535 = y % 65536 := by
  have h3 : y &&& (2 ^ 16 - 1) = y % 2 ^ 16 :=
    Nat.and_pow_two_sub_one_eq_mod y 16
  calc y &&& 65535 = y &&& (2 ^ 16 - 1) := by norm_num
    _ = y % 2 ^ 16 := h3
    _ = y % 65536 := by norm_num

/-- Arithmetic form of the mask `~0x2000` (`0xffffdfff`) on a 32-bit
value. -/
theorem and_ffffdfff_eq (x : Nat) (h : x < 4294967296) :
    x &&& 0xffffdfff =
      65536 * (x / 65536) + (256 * (x % 65536 / 256 &&& 0xdf) + x % 256) := by
  have e1 : x = 65536 * (x / 65536) + x % 65536 := by omega
  have e2 : x % 65536 = 256 * (x % 65536 / 256) + x % 256 := by omega
  have hm : (0xffffdfff : Nat) = 65536 * 0xffff + 0xdfff := by norm_num
  have hm2 : (0xdfff : Nat) = 256 * 0xdf + 0xff := by norm_num
  calc x &&& 0xffffdfff
      = (65536 * (x / 65536) + x % 65536) &&& (65536 * 0xffff + 0xdfff) := by
        rw [← e1, ← hm]
    _ = 65536 * (x / 65536 &&& 0xffff) + (x % 65536 &&& 0xdfff) :=
        nat_land_split_65536 _ _ _ _ (by omega) (by norm_num)
    _ = 65536 * (x / 65536) +
          ((256 * (x % 65536 / 256) + x % 256) &&& (256 * 0xdf + 0xff)) := by
        have hq : x / 65536 &&& 0xffff = x / 65536 := by
          rw [show (0xffff : Nat) = 65535 from rfl, and_65535_eq]
          omega
        rw [hq, ← e2, ← hm2]
    _ = 65536 * (x / 65536) +
          (256 * (x % 65536 / 256 &&& 0xdf) + (x % 256 &&& 0xff)) := by
        rw [nat_land_split_256 _ _ _ _ (by omega) (by norm_num)]
    _ = 65536 * (x / 65536) + (256 * (x % 65536 / 256 &&& 0xdf) + x % 256) := by
        rw [show (0xff : Nat) = 255 from rfl, and_255_eq]
        omega

/-- Arithmetic form of the mask `~0x38` (`0xffffffc7`) on a 32-bit
value. -/
theorem and_ffffffc7_eq (x : Nat) (h : x < 4294967296) :
    x &&& 0xffffffc7 =
      65536 * (x / 65536) + (256 * (x % 65536 / 256) + (x % 256 &&& 0xc7)) := by
  have e1 : x = 65536 * (x / 65536) + x % 65536 := by omega
  have e2 : x % 65536 = 256 * (x % 65536 / 256) + x % 256 := by omega
  have hm : (0xffffffc7 : Nat) = 65536 * 0xffff + 0xffc7 := by norm_num
  have hm2 : (0xffc7 : Nat) = 256 * 0xff + 0xc7 := by norm_num
  calc x &&& 0xffffffc7
      = (65536 * (x / 65536) + x % 65536) &&& (65536 * 0xffff + 0xffc7) := by
        rw [← e1, ← hm]
    _ = 65536 * (x / 65536 &&& 0xffff) + (x % 65536 &&& 0xffc7) :=
        nat_land_split_65536 _ _ _ _ (by omega) (by norm_num)
    _ = 65536 * (x / 65536) +
          ((256 * (x % 65536 / 256) + x % 256) &&& (256 * 0xff + 0xc7)) := by
        have hq : x / 65536 &&& 0xffff = x / 65536 := by
          rw [show (0xffff : Nat) = 65535 from rfl, and_65535_eq]
          omega
        rw [hq, ← e2, ← hm2]
    _ = 65536 * (x / 65536) +
          (256 * (x % 65536 / 256 &&& 0xff) + (x % 256 &&& 0xc7)) := by
        rw [nat_land_split_256 _ _ _ _ (by omega) (by norm_num)]
    _ = 65536 * (x / 65536) + (256 * (x % 65536 / 256) + (x % 256 &&& 0xc7)) := by
        rw [show (0xff : Nat) = 255 from rfl, and_255_eq]
        have : x % 65536 / 256 < 256 := by omega
        rw [Nat.mod_eq_of_lt this]

set_option maxRecDepth 4096 in
/-- Solutions of `b &&& 0xdf = 0xdd` over a byte. -/
theorem byte_df_dd : ∀ b, b < 256 →
    (b &&& 0xdf = 0xdd ↔ (b = 0xdd ∨ b = 0xfd)) := by decide

set_option maxRecDepth 4096 in
/-- Solutions of `b &&& 0xc7 = 0` over a byte. -/
theorem byte_c7_zero : ∀ b, b < 256 →
    (b &&& 0xc7 = 0 ↔ (b = 0 ∨ b = 8 ∨ b = 0x10 ∨ b = 0x18 ∨ b = 0x20 ∨
      b = 0x28 ∨ b = 0x30 ∨ b = 0x38)) := by decide

set_option maxRecDepth 4096 in
/-- Solutions of `b &&& 0xc7 = 0xc2` over a byte. -/
theorem byte_c7_c2 : ∀ b, b < 256 →
    (b &&& 0xc7 = 0xc2 ↔ (b = 0xc2 ∨ b = 0xca ∨ b = 0xd2 ∨ b = 0xda ∨
      b = 0xe2 ∨ b = 0xea ∨ b = 0xf2 ∨ b = 0xfa)) := by decide

set_option maxRecDepth 4096 in
/-- Solutions of `b &&& 0xc7 = 0xc0` over a byte. -/
theorem byte_c7_c0 : ∀ b, b < 256 →
    (b &&& 0xc7 = 0xc0 ↔ (b = 0xc0 ∨ b = 0xc8 ∨ b = 0xd0 ∨ b = 0xd8 ∨
      b = 0xe0 ∨ b = 0xe8 ∨ b = 0xf0 ∨ b = 0xf8)) := by decide

set_option maxRecDepth 4096 in
/-- Solutions of `b &&& 0xc7 = 0x45` over a byte. -/
theorem byte_c7_45 : ∀ b, b < 256 →
    (b &&& 0xc7 = 0x45 ↔ (b = 0x45 ∨ b = 0x4d ∨ b = 0x55 ∨ b = 0x5d ∨
      b = 0x65 ∨ b = 0x6d ∨ b = 0x75 ∨ b = 0x7d)) := by decide

/-- AND with a single bit keeps exactly that bit. -/
theorem and_two_pow_eq (f k : Nat) :
    f &&& 2 ^ k = if f.testBit k then 2 ^ k else 0 := by
  apply Nat.eq_of_testBit_eq
  intro j
  rw [Nat.testBit_and, Nat.testBit_two_pow]
  by_cases h : k = j
  · subst h
    cases hb : f.testBit k <;> simp [hb]
  · cases hb : f.testBit k <;>
      simp [hb, h, Nat.testBit_two_pow_of_ne h]

/-- Fact: `f & 0x40` vanishes exactly when the Z flag (bit 6) is clear. -/
theorem and_64_eq_zero (f : Nat) : f &&& 64 = 0 ↔ f.testBit 6 = false := by
  have h := and_two_pow_eq f 6
  norm_num at h
  rw [h]
  cases hb : f.testBit 6 <;> simp [hb]

/-- Fact: `f & 0x01` vanishes exactly when the carry flag (bit 0) is clear. -/
theorem and_1_eq_zero (f : Nat) : f &&& 1 = 0 ↔ f.testBit 0 = false := by
  simp only [Nat.and_one_is_mod, Nat.testBit_zero, decide_eq_false_iff_not]
  omega

/-- Fact: `f & 0x04` vanishes exactly when the parity/overflow flag (bit 2)
is clear. -/
theorem and_4_eq_zero (f : Nat) : f &&& 4 = 0 ↔ f.testBit 2 = false := by
  have h := and_two_pow_eq f 2
  norm_num at h
  rw [h]
  cases hb : f.testBit 2 <;> simp [hb]

/-- Fact: `f & 0x80` vanishes exactly when the sign flag (bit 7) is clear. -/
theorem and_128_eq_zero (f : Nat) : f &&& 128 = 0 ↔ f.testBit 7 = false := by
  have h := and_two_pow_eq f 7
  norm_num at h
  rw [h]
  cases hb : f.testBit 7 <;> simp [hb]


/-- Normalizing an index prefix never increases the opcode value. -/
theorem normalizeIndexOp_le (op : Nat) : normalizeIndexOp op ≤ op := by
  unfold normalizeIndexOp
  split
  · exact Nat.and_le_left
  · exact Nat.le_refl op

/-- Fact: `f & 0x40` is nonzero exactly when the Z flag (bit 6) is set. -/
theorem and_64_ne_zero (f : Nat) : f &&& 64 ≠ 0 ↔ f.testBit 6 = true := by
  rw [Ne, and_64_eq_zero]
  cases hb : f.testBit 6 <;> simp [hb]

/-- Fact: `f & 0x01` is nonzero exactly when the carry flag (bit 0) is set. -/
theorem and_1_ne_zero (f : Nat) : f &&& 1 ≠ 0 ↔ f.testBit 0 = true := by
  rw [Ne, and_1_eq_zero]
  cases hb : f.testBit 0 <;> simp [hb]

/-- Fact: `f & 0x04` is nonzero exactly when the parity/overflow flag (bit 2)
is set. -/
theorem and_4_ne_zero (f : Nat) : f &&& 4 ≠ 0 ↔ f.testBit 2 = true := by
  rw [Ne, and_4_eq_zero]
  cases hb : f.testBit 2 <;> simp [hb]

/-- Fact: `f & 0x80` is nonzero exactly when the sign flag (bit 7) is set. -/
theorem and_128_ne_zero (f : Nat) : f &&& 128 ≠ 0 ↔ f.testBit 7 = true := by
  rw [Ne, and_128_eq_zero]
  cases hb : f.testBit 7 <;> simp [hb]

/-- Characterization of the halt-class mask test of
`sdl_dbg_bptest_step`: over the `dword` range, `(op & ~0x2000) ==
0xdd76` holds exactly for the two index-prefixed HALT encodings. -/
theorem halt_mask_iff (op : Nat) (h : op < 4294967296) :
    op &&& 0xffffdfff = 0xdd76 ↔ (op = 0xdd76 ∨ op = 0xfd76) := by
  rw [and_ffffdfff_eq op h]
  have hb := byte_df_dd (op % 65536 / 256) (by omega)
  have hle : op % 65536 / 256 &&& 0xdf ≤ 0xdf := Nat.and_le_right
  omega

set_option maxHeartbeats 1000000 in
/-- Characterization of the step-over re-target condition: the code's
mask-table disjunction holds exactly on the enumerated opcode list. -/
theorem stepOverRetarget_iff (x : Nat) (h : x < 4294967296) :
    (x = 0xc3 ∨ x = 0xc9 ∨ x = 0xe9 ∨ x &&& 0xffffffc7 = 0 ∨
      x &&& 0xffffffc7 = 0xc2 ∨ x &&& 0xffffffc7 = 0xc0 ∨
      x &&& 0xffffffc7 = 0xed45) ↔ x ∈ stepOverRetargetOps := by
  have hd := and_ffffffc7_eq x h
  have hle : x % 256 &&& 0xc7 ≤ 0xc7 := Nat.and_le_right
  have e0 : x &&& 0xffffffc7 = 0 ↔
      (x = 0 ∨ x = 8 ∨ x = 0x10 ∨ x = 0x18 ∨ x = 0x20 ∨ x = 0x28 ∨
        x = 0x30 ∨ x = 0x38) := by
    have hb := byte_c7_zero (x % 256) (by omega)
    omega
  have e2 : x &&& 0xffffffc7 = 0xc2 ↔
      (x = 0xc2 ∨ x = 0xca ∨ x = 0xd2 ∨ x = 0xda ∨ x = 0xe2 ∨ x = 0xea ∨
        x = 0xf2 ∨ x = 0xfa) := by
    have hb := byte_c7_c2 (x % 256) (by omega)
    omega
  have ec0 : x &&& 0xffffffc7 = 0xc0 ↔
      (x = 0xc0 ∨ x = 0xc8 ∨ x = 0xd0 ∨ x = 0xd8 ∨ x = 0xe0 ∨ x = 0xe8 ∨
        x = 0xf0 ∨ x = 0xf8) := by
    have hb := byte_c7_c0 (x % 256) (by omega)
    omega
  have e45 : x &&& 0xffffffc7 = 0xed45 ↔
      (x = 0xed45 ∨ x = 0xed4d ∨ x = 0xed55 ∨ x = 0xed5d ∨ x = 0xed65 ∨
        x = 0xed6d ∨ x = 0xed75 ∨ x = 0xed7d) := by
    have hb := byte_c7_45 (x % 256) (by omega)
    omega
  rw [e0, e2, ec0, e45]
  simp only [stepOverRetargetOps, List.mem_cons, List.not_mem_nil, or_false]
  omega

/-- C4: the step-into trigger test returns continue exactly when the
fetched opcode is a HALT-class instruction (plain `0x76` or
index-prefixed `0xDD76`/`0xFD76`) that is still awaiting an unmasked,
enabled interrupt — that is, no interrupt line is active with the
interrupt flip-flop enabled (`interrupts != 0 && iff1`); in every other
situation (any non-HALT opcode, or a HALT whose wake-up interrupt is
already pending and enabled) it returns stop, so stepping through a HALT
under a pending interrupt does not stall. -/
theorem C4_step_into_stop_unless_halt (op interrupts iff1 : Nat)
    (h : op < 4294967296) :
    sdl_dbg_bptest_step op interrupts iff1 = 0 ↔
      ((op = 0x76 ∨ op = 0xdd76 ∨ op = 0xfd76) ∧
        ¬(interrupts ≠ 0 ∧ iff1 ≠ 0)) := by
  have hch := halt_mask_iff op h
  unfold sdl_dbg_bptest_step
  split_ifs with h1 h2
  · constructor
    · intro h10
      simp at h10
    · intro ⟨hh, _⟩
      rcases hh with h76 | hdd
      · exact absurd h76 h1.1
      · exact absurd (hch.mpr hdd) h1.2
  · constructor
    · intro h10
      simp at h10
    · intro ⟨_, hni⟩
      exact absurd h2 hni
  · constructor
    · intro _
      constructor
      · by_cases h76 : op = 0x76
        · exact Or.inl h76
        · have : op &&& 0xffffdfff = 0xdd76 := by
            by_contra hnd
            exact h1 ⟨h76, hnd⟩
          exact Or.inr (hch.mp this)
      · exact h2
    · intro _
      rfl

/-- Witness for C4 at a concrete input: a plain HALT with no pending
interrupt makes the step-into trigger continue. -/
theorem C4_step_into_stop_unless_halt_witness :
    sdl_dbg_bptest_step 0x76 0 0 = 0 :=
  (C4_step_into_stop_unless_halt 0x76 0 0 (by norm_num)).mpr
    (by norm_num)

/-- C3: the finish trigger test stops (returns nonzero) exactly when the
current stack pointer is strictly above the captured threshold and the
prefix-normalized opcode satisfies the return condition: an
unconditional return form, or a conditional return form whose flag-bit
condition (Z, carry, parity/overflow, or sign, per the fixed
opcode-to-flag-bit table) is satisfied by the live flag register. In
particular a return executed while `sp <= exitsp` never stops. -/
theorem C3_finish_stop_iff (sp exitsp op f : Nat) :
    sdl_dbg_bptest_finish sp exitsp op f ≠ 0 ↔
      (exitsp < sp ∧ finishRetSpec (normalizeIndexOp op) f) := by
  unfold sdl_dbg_bptest_finish
  by_cases hsp : sp ≤ exitsp
  · simp only [hsp, if_true, ne_eq, not_true_eq_false, false_iff, not_and]
    intro hlt
    omega
  · simp only [hsp, if_false]
    have hlt : exitsp < sp := by omega
    generalize normalizeIndexOp op = x
    split_ifs with h1 h2 h3 h4 h5 h6 h7 h8 h9 h10 h11 h12 h13 <;>
      simp_all [finishRetSpec, finishUncondRets, flagZ, flagC, flagPV,
        flagS, and_64_eq_zero, and_64_ne_zero, and_1_eq_zero,
        and_1_ne_zero, and_4_eq_zero, and_4_ne_zero, and_128_eq_zero,
        and_128_ne_zero, Nat.testBit_zero]

/-- C2 (amended): on each fire the step-over trigger test always returns
continue (0); it relocates the single live session breakpoint by
removing `step_bp` and registering a plain memory-exec breakpoint with
no callback covering exactly the destination — the current program
counter when the normalized opcode is in the fixed re-target tables
(return-class, unconditional-jump, or conditional-branch-class; plain
`CALL` opcodes are deliberately not in the tables), the previously
computed `over_target` otherwise, reduced to 16 bits. The stop at
`over_target` is produced by the relocated breakpoint itself, not by a
stop return from this test. -/
theorem C2_step_over_fire_amended (core : TilemCore)
    (pc op step_bp step_next_addr : Nat) (h : op < 4294967296) :
    sdl_dbg_bptest_step_over core pc op step_bp step_next_addr =
      (0, core.next,
        ⟨⟨core.next, .memExec, false, stepOverSpecDest pc step_next_addr op,
            stepOverSpecDest pc step_next_addr op, 0xffff, none⟩ ::
          core.regs.filter (fun b => b.id ≠ step_bp), core.next + 1⟩) := by
  have hx : normalizeIndexOp op < 4294967296 :=
    Nat.lt_of_le_of_lt (normalizeIndexOp_le op) h
  have hiff := stepOverRetarget_iff (normalizeIndexOp op) hx
  show (0, core.next,
      (⟨⟨core.next, .memExec, false,
          (if normalizeIndexOp op = 0xc3 ∨ normalizeIndexOp op = 0xc9 ∨
              normalizeIndexOp op = 0xe9 ∨
              normalizeIndexOp op &&& 0xffffffc7 = 0 ∨
              normalizeIndexOp op &&& 0xffffffc7 = 0xc2 ∨
              normalizeIndexOp op &&& 0xffffffc7 = 0xc0 ∨
              normalizeIndexOp op &&& 0xffffffc7 = 0xed45 then pc
            else step_next_addr) &&& 0xffff,
          (if normalizeIndexOp op = 0xc3 ∨ normalizeIndexOp op = 0xc9 ∨
              normalizeIndexOp op = 0xe9 ∨
              normalizeIndexOp op &&& 0xffffffc7 = 0 ∨
              normalizeIndexOp op &&& 0xffffffc7 = 0xc2 ∨
              normalizeIndexOp op &&& 0xffffffc7 = 0xc0 ∨
              normalizeIndexOp op &&& 0xffffffc7 = 0xed45 then pc
            else step_next_addr) &&& 0xffff,
          0xffff, none⟩ ::
        core.regs.filter (fun b => b.id ≠ step_bp),
        core.next + 1⟩ : TilemCore)) =
      (0, core.next,
        (⟨⟨core.next, .memExec, false, stepOverSpecDest pc step_next_addr op,
            stepOverSpecDest pc step_next_addr op, 0xffff, none⟩ ::
          core.regs.filter (fun b => b.id ≠ step_bp),
          core.next + 1⟩ : TilemCore))
  rw [and_65535_eq]
  unfold stepOverSpecDest
  by_cases hm : normalizeIndexOp op ∈ stepOverRetargetOps
  · rw [if_pos (hiff.mpr hm), if_pos hm]
  · rw [if_neg (fun hc => hm (hiff.mp hc)), if_neg hm]

/-- Witness for C2 (amended) at a concrete input: firing on opcode
`0x41` (`LD B,C`, not a re-target-class opcode) keeps the previously
computed target and returns continue. -/
theorem C2_step_over_fire_amended_witness :
    sdl_dbg_bptest_step_over ⟨[], 1⟩ 0x1000 0x41 0 0x1234 =
      (0, 1, ⟨[⟨1, .memExec, false, 0x1234, 0x1234, 0xffff, none⟩], 2⟩) := by
  rw [C2_step_over_fire_amended ⟨[], 1⟩ 0x1000 0x41 0 0x1234 (by norm_num)]
  rfl

/-- C2 (counterexample): the claim as stated — that the step-over
trigger test itself returns stop when the fetch address equals
`over_target` — is false: with the non-re-target opcode `0x41` fetched
at `pc = over_target = 0x1234`, the test still returns 0 (continue);
stopping is delegated to the breakpoint it registers. -/
theorem C2_step_over_claim_counterexample : ¬ stepOverClaimAsStated := by
  intro hcl
  have h := hcl ⟨[], 1⟩ 0x1234 0x41 0 0x1234 (by decide)
  exact (h.mpr rfl) rfl

/-- C8 (counterexample): the claim that the matcher returns true exactly
when `(addr & mask)` lies in `[start, end]` (for an address already
normalized to the breakpoint's space) fails on a disabled breakpoint:
this logical entry covers the whole space and the masked address is in
range, yet the matcher returns false because the entry is disabled. -/
theorem C8_matches_claim_counterexample :
    sdl_dbg_bp_matches_addr
        ⟨.logical, 1, 0, 0xffff, 0xffff, 1, 0, 0, 0⟩ 5 true = false ∧
      ((5 : Nat) &&& 0xffff ≥ 0 ∧ (5 : Nat) &&& 0xffff ≤ 0xffff) := by
  decide

/-- C8 (amended): for an enabled breakpoint queried in its own address
space, the matcher returns true exactly when the masked address lies in
the closed interval `[start, end]`; it is a pure total function of its
inputs. Moreover, with mask 0 and bounds pre-masked by the mask (the
data-model invariant), matching forces `start = end = 0` — and then
every address matches. -/
theorem C8_matches_amended (bp : TilemSdlDebugBreakpoint) (addr : Nat)
    (logical : Bool) (hen : bp.disabled = 0)
    (hsp : bp.type = (if logical then SdlDbgBpType.logical
      else SdlDbgBpType.physical)) :
    (sdl_dbg_bp_matches_addr bp addr logical = true ↔
      (bp.start ≤ addr &&& bp.mask ∧ addr &&& bp.mask ≤ bp.end_)) ∧
    (bp.mask = 0 → bp.start &&& bp.mask = bp.start →
      bp.end_ &&& bp.mask = bp.end_ →
      (bp.start = 0 ∧ bp.end_ = 0 ∧
        sdl_dbg_bp_matches_addr bp addr logical = true)) := by
  constructor
  · unfold sdl_dbg_bp_matches_addr
    cases logical <;> simp_all
  · intro hm h1 h2
    rw [hm, Nat.and_zero] at h1 h2
    have hs0 : bp.start = 0 := h1.symm
    have he0 : bp.end_ = 0 := h2.symm
    refine ⟨hs0, he0, ?_⟩
    unfold sdl_dbg_bp_matches_addr
    cases logical <;> simp [hen, hsp, hm, hs0, he0, Nat.and_zero]

/-- Witness for C8 (amended) at a concrete input: an enabled logical
range breakpoint matches an in-range address. -/
theorem C8_matches_amended_witness :
    sdl_dbg_bp_matches_addr
      ⟨.logical, 1, 0x9000, 0x90ff, 0xffff, 0, 0, 0, 0⟩ 0x9010 true = true :=
  (C8_matches_amended ⟨.logical, 1, 0x9000, 0x90ff, 0xffff, 0, 0, 0, 0⟩
    0x9010 true rfl rfl).1.mpr (by decide)

/-- C9 (amended): `sdl_dbg_find_visible_line` and
`sdl_dbg_address_at_line` walk forward from `base` with the same
next-instruction-boundary step, but the search compares addresses
modulo 2^16 (`(cur & 0xffff) == (addr & 0xffff)`): a returned index is
the least line, among the first `N`, whose boundary address is congruent
to `addr` mod 2^16 (not necessarily equal to `addr`), and "not found" is
returned exactly when no such line exists. -/
theorem C9_find_visible_line_amended (f : Nat → Nat)
    (base lines addr : Nat) :
    (∀ i, sdl_dbg_find_visible_line f base lines addr = some i →
      (i < lines ∧
        sdl_dbg_address_at_line f base i &&& 0xffff = addr &&& 0xffff ∧
        ∀ j, j < i →
          sdl_dbg_address_at_line f base j &&& 0xffff ≠ addr &&& 0xffff)) ∧
    (sdl_dbg_find_visible_line f base lines addr = none ↔
      ∀ j, j < lines →
        sdl_dbg_address_at_line f base j &&& 0xffff ≠ addr &&& 0xffff) := by
  induction lines generalizing base with
  | zero =>
    constructor
    · intro i hi
      simp [sdl_dbg_find_visible_line] at hi
    · constructor
      · intro _ j hj
        omega
      · intro _
        rfl
  | succ n ih =>
    by_cases hb : base &&& 0xffff = addr &&& 0xffff
    · constructor
      · intro i hi
        simp only [sdl_dbg_find_visible_line, hb, if_true,
          Option.some.injEq] at hi
        subst hi
        refine ⟨Nat.succ_pos n, hb, ?_⟩
        intro j hj
        omega
      · constructor
        · intro hnone
          simp [sdl_dbg_find_visible_line, hb] at hnone
        · intro hall
          exact absurd hb (hall 0 (Nat.succ_pos n))
    · have ih' := ih (sdl_dbg_disasm_next_addr f base)
      constructor
      · intro i hi
        simp only [sdl_dbg_find_visible_line, hb, if_false,
          Option.map_eq_some'] at hi
        obtain ⟨i', hfind, hinc⟩ := hi
        obtain ⟨hlt, hcong, hleast⟩ := ih'.1 i' hfind
        subst hinc
        refine ⟨by omega, hcong, ?_⟩
        intro j hj
        match j with
        | 0 => exact hb
        | k + 1 => exact hleast k (by omega)
      · simp only [sdl_dbg_find_visible_line, hb, if_false,
          Option.map_eq_none']
        rw [ih'.2]
        constructor
        · intro hall j hj
          match j with
          | 0 => exact hb
          | k + 1 => exact hall k (by omega)
        · intro hall k hk
          exact hall (k + 1) (by omega)

/-- Witness for C9 (amended) at a concrete input: with unit-length
instructions from base 0, address 1 is found on line 1 and that line's
address is congruent to it. -/
theorem C9_find_visible_line_amended_witness :
    (1 : Nat) < 2 ∧
      sdl_dbg_address_at_line (fun a => a + 1) 0 1 &&& 0xffff =
        (1 : Nat) &&& 0xffff :=
  let h := (C9_find_visible_line_amended (fun a => a + 1) 0 2 1).1 1
    (by decide)
  ⟨h.1, h.2.1⟩

/-- C9 (counterexample): the claim as stated fails because the
comparison is modulo 2^16: searching one line from base 0x14000 for
address 0x4000 must report "not found" per the claim (0x4000 is not
among the boundaries), but the code returns line 0, whose address
0x14000 is congruent to 0x4000 mod 2^16 without being equal to it. -/
theorem C9_find_visible_line_claim_counterexample :
    ¬ findVisibleLineClaimAsStated := by
  intro hcl
  have h := (hcl (fun a => a + 1) 0x14000 1 0x4000).2 (by decide)
  exact absurd h (by decide)

/-- Cancelling the session breakpoint restores the idle half of the
controller invariant. -/
theorem stepCtlInv_cancel (s : SdlDbgStepCtl) (h : StepCtlInv s) :
    StepCtlInv (sdl_dbg_cancel_step_bp s) ∧
      (sdl_dbg_cancel_step_bp s).step_bp = 0 ∧
      (sdl_dbg_cancel_step_bp s).sessLive = [] := by
  obtain ⟨h1, h2, h3⟩ := h
  unfold sdl_dbg_cancel_step_bp
  by_cases hz : s.step_bp = 0
  · rw [if_pos hz]
    have h1' : s.sessLive = [] := by rw [h1, hz, if_pos rfl]
    exact ⟨⟨h1, h2, h3⟩, hz, h1'⟩
  · rw [if_neg hz]
    rw [if_neg hz] at h1
    have hf : s.sessLive.filter (fun h => h ≠ s.step_bp) = [] := by
      rw [h1]
      simp
    refine ⟨⟨?_, ?_, h3⟩, rfl, hf⟩
    · rw [hf, if_pos rfl]
    · intro hh hmem
      rw [hf] at hmem
      simp at hmem

/-- Registering a session trigger from an idle controller restores the
controller invariant. -/
theorem stepCtlInv_run_with (s : SdlDbgStepCtl) (t : StepTestTag)
    (_hz : s.step_bp = 0) (he : s.sessLive = []) (hn : 1 ≤ s.core.next) :
    StepCtlInv (sdl_dbg_run_with_step_condition s t) := by
  simp only [sdl_dbg_run_with_step_condition, tilem_z80_add_breakpoint]
  refine ⟨?_, ?_, ?_⟩
  · simp only [he, List.nil_append]
    rw [if_neg (by omega)]
  · intro hh hmem
    simp only [he, List.nil_append, List.mem_singleton] at hmem
    subst hmem
    exact ⟨⟨s.core.next, .execute, false, 0, 0, 0, some t⟩,
      List.mem_cons_self _ _, rfl⟩
  · simp only
    omega

/-- Every step-controller event preserves the controller invariant. -/
theorem stepCtlInv_preserved (e : StepEvent) (s : SdlDbgStepCtl)
    (h : StepCtlInv s) : StepCtlInv (stepEventRun e s) := by
  obtain ⟨hc, hcz, hce⟩ := stepCtlInv_cancel s h
  cases e with
  | intoCmd paused =>
    cases paused with
    | false => simpa only [stepEventRun, sdl_dbg_step, Bool.false_eq_true,
        if_false] using h
    | true =>
      simp only [stepEventRun, sdl_dbg_step, if_true]
      exact stepCtlInv_run_with _ _ hcz hce hc.2.2
  | overCmd paused nextAddr =>
    cases paused with
    | false => simpa only [stepEventRun, sdl_dbg_step_over,
        Bool.false_eq_true, if_false] using h
    | true =>
      simp only [stepEventRun, sdl_dbg_step_over, if_true]
      exact stepCtlInv_run_with _ _ hcz hce hc.2.2
  | finishCmd paused =>
    cases paused with
    | false => simpa only [stepEventRun, sdl_dbg_finish,
        Bool.false_eq_true, if_false] using h
    | true =>
      simp only [stepEventRun, sdl_dbg_finish, if_true]
      exact stepCtlInv_run_with _ _ hcz hce hc.2.2
  | overFire pc op =>
    obtain ⟨h1, _h2, h3⟩ := h
    have hf : s.sessLive.filter (fun hh => hh ≠ s.step_bp) = [] := by
      by_cases hz : s.step_bp = 0
      · rw [hz, if_pos rfl] at h1
        rw [h1]
        rfl
      · rw [if_neg hz] at h1
        rw [h1]
        simp
    simp only [stepEventRun, sdl_dbg_step_over_fire,
      sdl_dbg_bptest_step_over, tilem_z80_add_breakpoint,
      tilem_z80_remove_breakpoint]
    refine ⟨?_, ?_, ?_⟩
    · simp only [hf, List.nil_append]
      rw [if_neg (by omega)]
    · intro hh hmem
      simp only [hf, List.nil_append, List.mem_singleton] at hmem
      subst hmem
      exact ⟨_, List.mem_cons_self _ _, rfl⟩
    · simp only
      omega
  | cancelCmd =>
    exact hc

/-- C5: at most one step-session trampoline breakpoint is registered
with the emulator core at any time. Along every sequence of
step-controller events (step/step-over/finish commands, step-over
trigger fires, cancellations) from the initial state, the list of live
session-registered handles is `[step_bp]` when a session is active and
empty otherwise — in particular it never has more than one element —
and each live session handle is registered with the core. -/
theorem C5_single_trampoline (evs : List StepEvent) :
    (stepCtlRun evs).sessLive.length ≤ 1 ∧
      (stepCtlRun evs).sessLive =
        (if (stepCtlRun evs).step_bp = 0 then []
          else [(stepCtlRun evs).step_bp]) ∧
      ∀ h ∈ (stepCtlRun evs).sessLive,
        ∃ b ∈ (stepCtlRun evs).core.regs, b.id = h := by
  have hrun : ∀ (l : List StepEvent) (s : SdlDbgStepCtl), StepCtlInv s →
      StepCtlInv (l.foldl (fun s e => stepEventRun e s) s) := by
    intro l
    induction l with
    | nil => intro s hs; exact hs
    | cons e rest ih =>
      intro s hs
      exact ih _ (stepCtlInv_preserved e s hs)
  have hinit : StepCtlInv stepCtlInit := by
    refine ⟨rfl, ?_, by norm_num [stepCtlInit]⟩
    intro h hh
    simp [stepCtlInit] at hh
  obtain ⟨h1, h2, _⟩ := hrun evs stepCtlInit hinit
  refine ⟨?_, h1, h2⟩
  rw [show stepCtlRun evs =
    evs.foldl (fun s e => stepEventRun e s) stepCtlInit from rfl, h1]
  split <;> simp

/-- Filtering by a handle absent from the list leaves it unchanged. -/
theorem filter_fresh (regs : List CoreBreakpoint) (m : Nat)
    (h : ∀ b ∈ regs, b.id ≠ m) :
    regs.filter (fun b => b.id ≠ m) = regs :=
  List.filter_eq_self.mpr (fun b hb => by simpa using h b hb)

/-- Removing a freshly prepended entry by its handle restores the
tail. -/
theorem filter_remove_head (e : CoreBreakpoint)
    (regs : List CoreBreakpoint) (h : ∀ b ∈ regs, b.id ≠ e.id) :
    (e :: regs).filter (fun b => b.id ≠ e.id) = regs := by
  rw [List.filter_cons_of_neg (by simp), filter_fresh regs e.id h]

/-- Filtering by a handle different from the head's keeps the head. -/
theorem filter_keep_head (e : CoreBreakpoint) (regs : List CoreBreakpoint)
    (m : Nat) (hne : e.id ≠ m) :
    (e :: regs).filter (fun b => b.id ≠ m) =
      e :: regs.filter (fun b => b.id ≠ m) := by
  rw [List.filter_cons_of_pos (by simpa using hne)]

/-- Dichotomy for one registration slot started with a zero handle:
either nothing is registered and the handle stays 0, or a fresh entry
carrying the breakpoint's range and mask is prepended. -/
theorem set_bp_slot_zero_cases (core : TilemCore)
    (bp : TilemSdlDebugBreakpoint) (bit : Nat) :
    sdl_dbg_set_bp_slot core bp bit 0 = (0, core) ∨
    (∃ k ph, sdl_dbg_set_bp_slot core bp bit 0 =
      (core.next,
        ⟨⟨core.next, k, ph, bp.start, bp.end_, bp.mask, none⟩ :: core.regs,
          core.next + 1⟩)) := by
  unfold sdl_dbg_set_bp_slot
  split_ifs with h
  · cases hk : sdl_dbg_get_core_bp_type bp.type bit with
    | none => exact Or.inl rfl
    | some kp =>
      obtain ⟨k, ph⟩ := kp
      exact Or.inr ⟨k, ph, rfl⟩
  · exact Or.inl rfl

/-- C6: adding a breakpoint entry (registering one core breakpoint per
access bit via `sdl_dbg_set_bp`, starting from a parsed entry whose
handles are zero) and then removing it (`sdl_dbg_unset_bp`, which
unregisters every nonzero handle before the entry is deleted) leaves the
test-double core's registration list exactly as it was before the add. -/
theorem C6_add_remove_restores (core : TilemCore)
    (bp : TilemSdlDebugBreakpoint) (hinv : CoreInv core) (h0 : bp.id0 = 0)
    (h1 : bp.id1 = 0) (h2 : bp.id2 = 0) :
    (sdl_dbg_unset_bp (sdl_dbg_set_bp core bp).2
      (sdl_dbg_set_bp core bp).1).2.regs = core.regs := by
  obtain ⟨hn, hmem⟩ := hinv
  have hfr : ∀ m, core.next ≤ m → ∀ b ∈ core.regs, b.id ≠ m := by
    intro m hm b hb
    have := hmem b hb
    omega
  by_cases hd : bp.disabled ≠ 0
  · simp [sdl_dbg_set_bp, if_pos hd, sdl_dbg_unset_bp, h0, h1, h2]
  · simp only [sdl_dbg_set_bp, if_neg hd, h0, h1, h2]
    rcases set_bp_slot_zero_cases core bp 1 with hs0 | ⟨k0, p0, hs0⟩ <;>
      rw [hs0] <;> dsimp only <;>
      [rcases set_bp_slot_zero_cases core bp 2 with hs1 | ⟨k1, p1, hs1⟩;
       rcases set_bp_slot_zero_cases
         ⟨⟨core.next, k0, p0, bp.start, bp.end_, bp.mask, none⟩ :: core.regs,
           core.next + 1⟩ bp 2 with hs1 | ⟨k1, p1, hs1⟩] <;>
      rw [hs1] <;> dsimp only <;>
      [rcases set_bp_slot_zero_cases core bp 4 with hs2 | ⟨k2, p2, hs2⟩;
       rcases set_bp_slot_zero_cases
         ⟨⟨core.next, k1, p1, bp.start, bp.end_, bp.mask, none⟩ :: core.regs,
           core.next + 1⟩ bp 4 with hs2 | ⟨k2, p2, hs2⟩;
       rcases set_bp_slot_zero_cases
         ⟨⟨core.next, k0, p0, bp.start, bp.end_, bp.mask, none⟩ :: core.regs,
           core.next + 1⟩ bp 4 with hs2 | ⟨k2, p2, hs2⟩;
       rcases set_bp_slot_zero_cases
         ⟨⟨core.next + 1, k1, p1, bp.start, bp.end_, bp.mask, none⟩ ::
             ⟨core.next, k0, p0, bp.start, bp.end_, bp.mask, none⟩ ::
             core.regs,
           core.next + 2⟩ bp 4 with hs2 | ⟨k2, p2, hs2⟩] <;>
      rw [hs2] <;> dsimp only <;>
      simp [sdl_dbg_unset_bp, tilem_z80_remove_breakpoint,
        filter_fresh core.regs core.next (hfr core.next (Nat.le_refl _)),
        filter_fresh core.regs (core.next + 1) (hfr (core.next + 1) (by omega)),
        filter_fresh core.regs (core.next + 2) (hfr (core.next + 2) (by omega)),
        show core.next ≠ 0 by omega,
        show core.next + 1 ≠ 0 by omega,
        show core.next + 2 ≠ 0 by omega,
        show core.next + 1 ≠ core.next by omega,
        show core.next + 2 ≠ core.next by omega,
        show core.next + 2 ≠ core.next + 1 by omega,
        show ¬core.next = core.next + 1 by omega,
        show ¬core.next = core.next + 2 by omega,
        show ¬core.next + 1 = core.next + 2 by omega] <;>
      (intro a ha
       have := hmem a ha
       omega)

/-- Witness for C6 at a concrete input: adding and removing a fresh
logical read/write/exec breakpoint on an empty core leaves it with no
registrations. -/
theorem C6_add_remove_restores_witness :
    (sdl_dbg_unset_bp
      (sdl_dbg_set_bp ⟨[], 1⟩ ⟨.logical, 7, 0x100, 0x1ff, 0xffff, 0, 0, 0, 0⟩).2
      (sdl_dbg_set_bp ⟨[], 1⟩
        ⟨.logical, 7, 0x100, 0x1ff, 0xffff, 0, 0, 0, 0⟩).1).2.regs = [] :=
  C6_add_remove_restores ⟨[], 1⟩ ⟨.logical, 7, 0x100, 0x1ff, 0xffff, 0, 0, 0, 0⟩
    ⟨Nat.le_refl 1, by simp⟩ rfl rfl rfl

/-- The exec-breakpoint search returns "not found" exactly when no entry
satisfies the combined enabled-exec-match predicate. -/
theorem find_exec_none_iff (bps : List TilemSdlDebugBreakpoint)
    (addr : Nat) (logical : Bool) :
    sdl_dbg_find_exec_breakpoint bps addr logical = none ↔
      ∀ bp ∈ bps, sdl_dbg_exec_bp_hit addr logical bp = false := by
  induction bps with
  | nil => simp [sdl_dbg_find_exec_breakpoint]
  | cons b rest ih =>
    by_cases hb : sdl_dbg_exec_bp_hit addr logical b
    · simp [sdl_dbg_find_exec_breakpoint, hb]
    · rw [Bool.not_eq_true] at hb
      simp [sdl_dbg_find_exec_breakpoint, hb, ih, List.forall_mem_cons]

/-- The exec-breakpoint search returns the index of the first entry
satisfying the predicate. -/
theorem find_exec_first (l1 : List TilemSdlDebugBreakpoint)
    (e : TilemSdlDebugBreakpoint) (l2 : List TilemSdlDebugBreakpoint)
    (addr : Nat) (logical : Bool)
    (h1 : ∀ bp ∈ l1, sdl_dbg_exec_bp_hit addr logical bp = false)
    (he : sdl_dbg_exec_bp_hit addr logical e = true) :
    sdl_dbg_find_exec_breakpoint (l1 ++ e :: l2) addr logical =
      some l1.length := by
  induction l1 with
  | nil => simp [sdl_dbg_find_exec_breakpoint, he]
  | cons b t ih =>
    have hb := h1 b (List.mem_cons_self b t)
    rw [List.cons_append]
    simp only [sdl_dbg_find_exec_breakpoint, hb, Bool.false_eq_true,
      if_false, ih (fun bp hbp => h1 bp (List.mem_cons_of_mem b hbp)),
      Option.map_some', List.length_cons]

/-- Fact: `getD` at the length of the left part of an append hits the middle
element. -/
theorem getD_append_mid (l1 : List TilemSdlDebugBreakpoint)
    (e : TilemSdlDebugBreakpoint) (l2 : List TilemSdlDebugBreakpoint)
    (d : TilemSdlDebugBreakpoint) :
    (l1 ++ e :: l2).getD l1.length d = e := by
  induction l1 with
  | nil => rfl
  | cons b t ih => simpa using ih

/-- Erasing at the length of the left part of an append removes the
middle element. -/
theorem eraseIdx_append_mid (l1 : List TilemSdlDebugBreakpoint)
    (e : TilemSdlDebugBreakpoint) (l2 : List TilemSdlDebugBreakpoint) :
    (l1 ++ e :: l2).eraseIdx l1.length = l1 ++ l2 := by
  induction l1 with
  | nil => rfl
  | cons b t ih => simpa [List.eraseIdx] using ih

/-- A map producing a singleton comes from a singleton. -/
theorem map_eq_single (f : TilemSdlDebugBreakpoint → SdlDbgBpView)
    (l : List TilemSdlDebugBreakpoint) (y : SdlDbgBpView)
    (h : l.map f = [y]) : ∃ x, l = [x] ∧ f x = y := by
  match l with
  | [] => simp at h
  | [x] =>
    simp only [List.map_cons, List.map_nil, List.cons.injEq,
      and_true] at h
    exact ⟨x, rfl, h⟩
  | x :: x2 :: t => simp at h

/-- A filter producing a singleton splits the list into a prefix and a
suffix of non-matching entries around the matching element. -/
theorem filter_eq_single_decomp (p : TilemSdlDebugBreakpoint → Bool)
    (l : List TilemSdlDebugBreakpoint) (e : TilemSdlDebugBreakpoint)
    (h : l.filter p = [e]) :
    ∃ l1 l2, l = l1 ++ e :: l2 ∧ (∀ b ∈ l1, p b = false) ∧ p e = true ∧
      (∀ b ∈ l2, p b = false) := by
  induction l with
  | nil => simp at h
  | cons b t ih =>
    by_cases hb : p b
    · rw [List.filter_cons_of_pos hb] at h
      injection h with hbe ht
      subst hbe
      refine ⟨[], t, rfl, by simp, hb, ?_⟩
      intro x hx
      have := List.filter_eq_nil_iff.mp ht x hx
      exact Bool.eq_false_iff.mpr this
    · rw [List.filter_cons_of_neg hb] at h
      obtain ⟨l1, l2, hl, h1, he, h2⟩ := ih h
      refine ⟨b :: l1, l2, by rw [hl, List.cons_append], ?_, he, h2⟩
      intro x hx
      rcases List.mem_cons.mp hx with hx | hx
      · rw [hx]
        exact Bool.eq_false_iff.mpr hb
      · exact h1 x hx

/-- Fact: `sdl_dbg_set_bp` changes only the registration handles of the entry
it returns, never its user-visible fields. -/
theorem set_bp_view (core : TilemCore) (bp : TilemSdlDebugBreakpoint) :
    sdlDbgBpView (sdl_dbg_set_bp core bp).1 = sdlDbgBpView bp := by
  simp only [sdl_dbg_set_bp]
  split_ifs <;> rfl

/-- The combined exec-match predicate only depends on the user-visible
fields of an entry. -/
theorem exec_bp_hit_view (addr : Nat) (logical : Bool)
    (b b' : TilemSdlDebugBreakpoint)
    (h : sdlDbgBpView b = sdlDbgBpView b') :
    sdl_dbg_exec_bp_hit addr logical b =
      sdl_dbg_exec_bp_hit addr logical b' := by
  unfold sdl_dbg_exec_bp_hit sdl_dbg_is_mem_exec_bp
    sdl_dbg_bp_matches_addr
  rw [show b.type = b'.type from congrArg SdlDbgBpView.type h,
    show b.mode = b'.mode from congrArg SdlDbgBpView.mode h,
    show b.start = b'.start from congrArg SdlDbgBpView.start h,
    show b.end_ = b'.end_ from congrArg SdlDbgBpView.end_ h,
    show b.mask = b'.mask from congrArg SdlDbgBpView.mask h,
    show b.disabled = b'.disabled from congrArg SdlDbgBpView.disabled h]

/-- The breakpoint that toggle creates matches its own address. -/
theorem canonical_bp_hit (addr : Nat) (logical : Bool) :
    sdl_dbg_exec_bp_hit addr logical (sdlDbgCanonicalBp addr logical) =
      true := by
  unfold sdlDbgCanonicalBp sdl_dbg_exec_bp_hit sdl_dbg_is_mem_exec_bp
    sdl_dbg_bp_matches_addr
  cases logical <;>
    simp [Nat.and_assoc, Nat.and_self, Nat.le_refl]

/-- When no enabled exec entry matches, toggle appends the freshly
registered canonical breakpoint at the end of the store. -/
theorem toggle_no_match (st : SdlDbgStore) (addr : Nat) (logical : Bool)
    (hfind : sdl_dbg_find_exec_breakpoint st.breakpoints addr logical =
      none) :
    (sdl_dbg_toggle_breakpoint st addr logical).breakpoints =
      st.breakpoints ++
        [(sdl_dbg_set_bp st.core (sdlDbgCanonicalBp addr logical)).1] := by
  simp only [sdl_dbg_toggle_breakpoint, hfind, sdlDbgCanonicalBp]

/-- When the store splits around the first enabled exec match, toggle
removes exactly that entry. -/
theorem toggle_found (st : SdlDbgStore) (addr : Nat) (logical : Bool)
    (l1 : List TilemSdlDebugBreakpoint) (e : TilemSdlDebugBreakpoint)
    (l2 : List TilemSdlDebugBreakpoint)
    (hsplit : st.breakpoints = l1 ++ e :: l2)
    (h1 : ∀ bp ∈ l1, sdl_dbg_exec_bp_hit addr logical bp = false)
    (he : sdl_dbg_exec_bp_hit addr logical e = true) :
    (sdl_dbg_toggle_breakpoint st addr logical).breakpoints = l1 ++ l2 := by
  have hfind : sdl_dbg_find_exec_breakpoint st.breakpoints addr logical =
      some l1.length := by
    rw [hsplit]
    exact find_exec_first l1 e l2 addr logical h1 he
  simp only [sdl_dbg_toggle_breakpoint, hfind]
  rw [hsplit, eraseIdx_append_mid]

/-- The entry toggle registers and appends matches its own address,
whatever the core state. -/
theorem set_canonical_hit (core : TilemCore) (addr : Nat)
    (logical : Bool) :
    sdl_dbg_exec_bp_hit addr logical
      (sdl_dbg_set_bp core (sdlDbgCanonicalBp addr logical)).1 = true := by
  rw [exec_bp_hit_view addr logical _ (sdlDbgCanonicalBp addr logical)
    (set_bp_view core (sdlDbgCanonicalBp addr logical))]
  exact canonical_bp_hit addr logical

/-- C7 (amended): toggling twice at the same address in the same space
leaves the store's set of exec breakpoints matching that address
unchanged provided every matching enabled exec entry (if any) is the
canonical single-address, exec-only, full-domain-mask breakpoint toggle
itself creates, and at most one such entry exists. (In particular, from
a store with no matching entry, toggling twice restores the store's
entry list exactly.) -/
theorem C7_toggle_twice_amended (st : SdlDbgStore) (addr : Nat)
    (logical : Bool)
    (hm : sdlDbgMatchingExecViews st.breakpoints addr logical = [] ∨
      sdlDbgMatchingExecViews st.breakpoints addr logical =
        [sdlDbgBpView (sdlDbgCanonicalBp addr logical)]) :
    sdlDbgMatchingExecViews
        (sdl_dbg_toggle_breakpoint
          (sdl_dbg_toggle_breakpoint st addr logical) addr
          logical).breakpoints addr logical =
      sdlDbgMatchingExecViews st.breakpoints addr logical := by
  rcases hm with hm | hm
  · have hfilter : st.breakpoints.filter
        (sdl_dbg_exec_bp_hit addr logical) = [] :=
      List.map_eq_nil_iff.mp hm
    have hall : ∀ bp ∈ st.breakpoints,
        sdl_dbg_exec_bp_hit addr logical bp = false := by
      intro bp hbp
      exact Bool.eq_false_iff.mpr (List.filter_eq_nil_iff.mp hfilter bp hbp)
    have hfind := (find_exec_none_iff st.breakpoints addr logical).mpr hall
    have h1 := toggle_no_match st addr logical hfind
    have hbp1 := set_canonical_hit st.core addr logical
    have h2 : (sdl_dbg_toggle_breakpoint
        (sdl_dbg_toggle_breakpoint st addr logical) addr
        logical).breakpoints = st.breakpoints ++ [] := by
      apply toggle_found _ addr logical st.breakpoints _ []
      · rw [h1]
      · exact hall
      · exact hbp1
    rw [h2, List.append_nil]
  · obtain ⟨e, hfe, hve⟩ := map_eq_single _ _ _ hm
    obtain ⟨l1, l2, hsplit, h1, he, h2all⟩ :=
      filter_eq_single_decomp _ _ _ hfe
    have htog1 := toggle_found st addr logical l1 e l2 hsplit h1 he
    have hall2 : ∀ bp ∈ l1 ++ l2,
        sdl_dbg_exec_bp_hit addr logical bp = false := by
      intro bp hbp
      rcases List.mem_append.mp hbp with hx | hx
      · exact h1 bp hx
      · exact h2all bp hx
    have hfind2 : sdl_dbg_find_exec_breakpoint
        (sdl_dbg_toggle_breakpoint st addr logical).breakpoints addr
        logical = none := by
      rw [htog1]
      exact (find_exec_none_iff _ addr logical).mpr hall2
    have htog2 := toggle_no_match
      (sdl_dbg_toggle_breakpoint st addr logical) addr logical hfind2
    rw [htog2, htog1]
    unfold sdlDbgMatchingExecViews
    rw [List.filter_append, List.filter_eq_nil_iff.mpr
      (fun b hb => by simp [hall2 b hb]), List.nil_append,
      List.filter_cons_of_pos (set_canonical_hit _ addr logical),
      List.filter_nil, hfe]
    simp only [List.map_cons, List.map_nil]
    rw [set_bp_view, hve]

/-- Witness for C7 (amended) at a concrete input: toggling twice at
0x9000 on an empty store leaves the (empty) matching set unchanged. -/
theorem C7_toggle_twice_amended_witness :
    sdlDbgMatchingExecViews
        (sdl_dbg_toggle_breakpoint
          (sdl_dbg_toggle_breakpoint ⟨⟨[], 1⟩, [], .logical, 1⟩ 0x9000
            true) 0x9000 true).breakpoints 0x9000 true =
      sdlDbgMatchingExecViews ([] : List TilemSdlDebugBreakpoint) 0x9000
        true :=
  C7_toggle_twice_amended ⟨⟨[], 1⟩, [], .logical, 1⟩ 0x9000 true
    (Or.inl rfl)

/-- C7 (counterexample): toggle-twice is not the identity on the set of
matching exec breakpoints for every store: starting from a store whose
only entry is an enabled logical exec RANGE breakpoint 0x9000-0x90FF,
toggling twice at 0x9000 first removes the range entry and then adds the
canonical single-address breakpoint, so the matching set changes. -/
theorem C7_toggle_twice_claim_counterexample :
    sdlDbgMatchingExecViews
        (sdl_dbg_toggle_breakpoint
          (sdl_dbg_toggle_breakpoint
            ⟨⟨[], 1⟩, [⟨.logical, 1, 0x9000, 0x90ff, 0xffff, 0, 0, 0, 0⟩],
              .logical, 1⟩ 0x9000 true) 0x9000 true).breakpoints 0x9000
        true ≠
      sdlDbgMatchingExecViews
        [⟨.logical, 1, 0x9000, 0x90ff, 0xffff, 0, 0, 0, 0⟩] 0x9000 true := by
  decide

/-- C10: the exec-breakpoint scan never returns a disabled entry — the
match predicate returns false for every disabled breakpoint at every
address and space — and consequently, toggling at an address whose only
in-range exec entry is disabled does not remove or re-enable that entry:
the store keeps all its entries unchanged (the disabled one included)
and a new enabled canonical single-address exec breakpoint is appended,
leaving both entries in the store. -/
theorem C10_disabled_skipped (st : SdlDbgStore) (addr : Nat)
    (logical : Bool)
    (_hdis : ∃ d ∈ st.breakpoints, sdl_dbg_is_mem_exec_bp d = true ∧
      d.disabled ≠ 0 ∧
      d.type = (if logical then SdlDbgBpType.logical else .physical) ∧
      d.start ≤ addr &&& d.mask ∧ addr &&& d.mask ≤ d.end_)
    (hnon : ∀ b ∈ st.breakpoints, b.disabled = 0 →
      sdl_dbg_exec_bp_hit addr logical b = false) :
    (∀ (bp : TilemSdlDebugBreakpoint) (a : Nat) (lg : Bool),
      bp.disabled ≠ 0 → sdl_dbg_bp_matches_addr bp a lg = false) ∧
    (sdl_dbg_toggle_breakpoint st addr logical).breakpoints.map
        sdlDbgBpView =
      st.breakpoints.map sdlDbgBpView ++
        [sdlDbgBpView (sdlDbgCanonicalBp addr logical)] := by
  have hskip : ∀ (bp : TilemSdlDebugBreakpoint) (a : Nat) (lg : Bool),
      bp.disabled ≠ 0 → sdl_dbg_bp_matches_addr bp a lg = false := by
    intro bp a lg h
    unfold sdl_dbg_bp_matches_addr
    rw [if_pos h]
  refine ⟨hskip, ?_⟩
  have hall : ∀ b ∈ st.breakpoints,
      sdl_dbg_exec_bp_hit addr logical b = false := by
    intro b hb
    by_cases hd : b.disabled = 0
    · exact hnon b hb hd
    · unfold sdl_dbg_exec_bp_hit
      rw [hskip b addr logical hd, Bool.and_false]
  have hfind := (find_exec_none_iff st.breakpoints addr logical).mpr hall
  rw [toggle_no_match st addr logical hfind, List.map_append,
    List.map_cons, List.map_nil, set_bp_view]

/-- Witness for C10 at a concrete input: with a single disabled exec
entry at 0x9000, toggling at 0x9000 keeps the disabled entry and appends
the enabled canonical breakpoint. -/
theorem C10_disabled_skipped_witness :
    (sdl_dbg_toggle_breakpoint
        ⟨⟨[], 1⟩, [⟨.logical, 1, 0x9000, 0x9000, 0xffff, 1, 0, 0, 0⟩],
          .logical, 1⟩ 0x9000 true).breakpoints.map sdlDbgBpView =
      [sdlDbgBpView ⟨.logical, 1, 0x9000, 0x9000, 0xffff, 1, 0, 0, 0⟩] ++
        [sdlDbgBpView (sdlDbgCanonicalBp 0x9000 true)] :=
  (C10_disabled_skipped
    ⟨⟨[], 1⟩, [⟨.logical, 1, 0x9000, 0x9000, 0xffff, 1, 0, 0, 0⟩],
      .logical, 1⟩ 0x9000 true
    ⟨⟨.logical, 1, 0x9000, 0x9000, 0xffff, 1, 0, 0, 0⟩, by decide⟩
    (by decide)).2

/-- The debugger's own add-dialog prefill style (lowercase mode letter,
as `sdl_dbg_handle_key` writes it) parses correctly in this model,
producing the expected enabled logical exec breakpoint. -/
theorem parse_lowercase_prefill_ok :
    sdl_dbg_parse_breakpoint sdlHwSample (fun _ => none) .logical 1
        (("logical x 8000").data) =
      .ok ⟨.logical, 1, 0x8000, 0x8000, 0xffff, 0, 0, 0, 0⟩ := by
  decide

/-- C1: the text codec does not round-trip its own output. Formatting
the enabled logical exec breakpoint at 0x8000 yields `"L X 8000"`, and
parsing that very string (with no symbols loaded, under the debugger's
initial "last used" defaults, which the format/parse pair is meant to
reproduce) fails with "Invalid address.": `sdl_dbg_parse_bp_mode` only
recognizes the lowercase characters `r`/`w`/`x` (`strchr` is
case-sensitive and the substring tests look for full words), so the
uppercase mode letters emitted by `sdl_dbg_format_breakpoint` are not
consumed as a mode token; `"X"` becomes the address token and the real
address `"8000"` is discarded. -/
theorem C1_format_output_rejected_by_parse :
    sdl_dbg_format_breakpoint sdlDbgRoundTripBp = ("L X 8000").data ∧
    sdl_dbg_parse_breakpoint sdlHwSample (fun _ => none) .logical 1
        (sdl_dbg_format_breakpoint sdlDbgRoundTripBp) =
      .error "Invalid address." := by
  decide
